import Mathlib

/-!
# Donetick chore scheduler

A shallow embedding of `internal/chore/scheduler.go` and a development of its
properties.

Modelling conventions.

* A Go `time.Time` is an instant (nanoseconds since the Unix epoch, an unbounded
  integer) together with the offset from UTC in effect at that instant and a
  flag telling whether its location has zone transitions (daylight saving
  time).  Reading the fields of a time needs the offset only; building a new
  time in a location with transitions needs the rules of that zone, which the
  model does not have: such a call ends in `Outcome.unmodelled`, unless it
  returns an error that does not depend on the time.
* The calendar functions of package `time` (`Date`, `AddDate`, `Year`, `Month`,
  `Day`, `Weekday`, ...) are modelled over the proleptic Gregorian calendar by
  cutting the day number into 400-year, 100-year, 4-year and 1-year cycles, in
  exact integer arithmetic.  Package `time` computes in 64 bits and is exact
  only while nothing overflows: the calls of the scheduler that pass
  `chore.Frequency` to `Date` or `AddDate` are modelled for steps within
  `calendarStep` and end in `Outcome.unmodelled` outside.
* `time.Duration` and `int` are 64-bit: products computed by the scheduler wrap
  (`wrapInt64`), and `Time.Sub` saturates as documented by package `time`.
* A Go function returning `(*time.Time, error)` yields an `Outcome`: the
  returned pair, a run-time panic (nil dereference), or `unmodelled` when the
  call returns a date that the model does not determine.
* Text decoded by `json.Unmarshal` and `time.Parse` is represented by the
  outcome of decoding it.
* The float64 arithmetic of the adaptive estimator, the random source and the
  clock are parameters of the functions that use them.
-/

set_option maxRecDepth 100000

namespace Donetick

/-! ## Calendar arithmetic -/

/-- Day of the 400-year era (0 .. 146096); eras start on 1 March of a year
divisible by 400, and day number 0 is 1970-01-01. -/
def dayOfEra (z : Int) : Int := (z + 719468) % 146097

/-- Index of the 400-year era containing day number `z`. -/
def eraOf (z : Int) : Int := (z + 719468) / 146097

/-- Century of the era (0 .. 3); the last century has one extra day. -/
def centuryOfEra (doe : Int) : Int := if doe / 36524 < 3 then doe / 36524 else 3

/-- Day of the century (0 .. 36524). -/
def dayOfCentury (doe : Int) : Int := doe - 36524 * centuryOfEra doe

/-- Year of a 4-year cycle (0 .. 3); the last year has one extra day. -/
def yearOfCycle (r4 : Int) : Int := if r4 / 365 < 3 then r4 / 365 else 3

/-- Year of the era (0 .. 399), counted from March. -/
def yearOfEra (doe : Int) : Int :=
  let r100 := dayOfCentury doe
  100 * centuryOfEra doe + 4 * (r100 / 1461) + yearOfCycle (r100 % 1461)

/-- Day of the March-based year (0 .. 365). -/
def dayOfYear (doe : Int) : Int :=
  let r4 := dayOfCentury doe % 1461
  r4 - 365 * yearOfCycle r4

/-- Month index of the March-based year (0 = March .. 11 = February). -/
def monthIndex (doy : Int) : Int := (5 * doy + 2) / 153

/-- Calendar month (1 .. 12) of day number `z`. -/
def civilMonth (z : Int) : Int :=
  let mp := monthIndex (dayOfYear (dayOfEra z))
  if mp < 10 then mp + 3 else mp - 9

/-- Calendar year of day number `z`. -/
def civilYear (z : Int) : Int :=
  yearOfEra (dayOfEra z) + 400 * eraOf z +
    (if monthIndex (dayOfYear (dayOfEra z)) < 10 then 0 else 1)

/-- Day of the month (1 .. 31) of day number `z`. -/
def civilDay (z : Int) : Int :=
  let doy := dayOfYear (dayOfEra z)
  doy - (153 * monthIndex doy + 2) / 5 + 1

/-- Day number of the calendar date `y-m-d` for a month `m` in 1 .. 12; the day
`d` may lie outside the month and then counts on into the neighbouring months,
as `time.Date` normalises it. -/
def daysFromCivil (y m d : Int) : Int :=
  let y1 := if m ≤ 2 then y - 1 else y
  let era := y1 / 400
  let yoe := y1 - era * 400
  let mp := if m > 2 then m - 3 else m + 9
  let doy := (153 * mp + 2) / 5 + d - 1
  let doe := yoe * 365 + yoe / 4 - yoe / 100 + doy
  era * 146097 + doe - 719468

/-! ## Package `time` -/

/-- A `time.Time`: the instant in nanoseconds since 1970-01-01T00:00:00Z, the
offset of its location in seconds east of UTC at that instant, and whether
the location has zone transitions (as the local zone of a process may have);
UTC and the fixed zones made by `time.Parse` have none. -/
structure Time where
  ns : Int
  offset : Int
  transitions : Bool := false
deriving DecidableEq

/-- Largest `time.Duration` (nanoseconds). -/
def maxDuration : Int := 9223372036854775807

/-- Smallest `time.Duration` (nanoseconds). -/
def minDuration : Int := -9223372036854775808

/-- Two-complement wrap of a 64-bit signed product or sum. -/
def wrapInt64 (x : Int) : Int := (x + 9223372036854775808) % 18446744073709551616 - 9223372036854775808

/-- Go `t.UTC()`: the same instant with the location set to UTC. -/
def Time.UTC (t : Time) : Time := { ns := t.ns, offset := 0 }

/-- Seconds since the epoch as read on a wall clock in the location of `t`. -/
def Time.wallSeconds (t : Time) : Int := t.ns / 1000000000 + t.offset

/-- Day number of `t` in its location. -/
def Time.dayNumber (t : Time) : Int := t.wallSeconds / 86400

/-- Second of the day of `t` in its location (0 .. 86399). -/
def Time.secondOfDay (t : Time) : Int := t.wallSeconds % 86400

/-- Go `t.Year()`. -/
def Time.Year (t : Time) : Int := civilYear t.dayNumber

/-- Go `t.Month()` as a number 1 .. 12. -/
def Time.Month (t : Time) : Int := civilMonth t.dayNumber

/-- Go `t.Day()`. -/
def Time.Day (t : Time) : Int := civilDay t.dayNumber

/-- Go `t.Hour()`. -/
def Time.Hour (t : Time) : Int := t.secondOfDay / 3600

/-- Go `t.Minute()`. -/
def Time.Minute (t : Time) : Int := t.secondOfDay % 3600 / 60

/-- Go `t.Second()`. -/
def Time.Second (t : Time) : Int := t.secondOfDay % 60

/-- Go `t.Nanosecond()`. -/
def Time.Nanosecond (t : Time) : Int := t.ns % 1000000000

/-- Go `t.Weekday()` as a number, 0 = Sunday .. 6 = Saturday. -/
def Time.Weekday (t : Time) : Int := (t.dayNumber + 4) % 7

/-- Go `t.Before(u)`: comparison of instants. -/
def Time.Before (t u : Time) : Prop := t.ns < u.ns

/-- Go `t.After(u)`: comparison of instants. -/
def Time.After (t u : Time) : Prop := u.ns < t.ns

instance (t u : Time) : Decidable (t.Before u) := by unfold Time.Before; infer_instance

instance (t u : Time) : Decidable (t.After u) := by unfold Time.After; infer_instance

/-- Go `time.Date(year, month, day, hour, min, sec, nsec, loc)` for a location
`loc` with a fixed offset: the month overflows into the year, and every other
field overflows into the next larger one, which exact integer arithmetic on
the totals subsumes.  Package `time` computes the same in 64 bits as long as
nothing overflows. -/
def Date (year month day hour min sec nsec loc : Int) : Time :=
  let m0 := month - 1
  let y := year + m0 / 12
  let m := m0 % 12 + 1
  let wall := daysFromCivil y m day * 86400 + hour * 3600 + min * 60 + sec
  { ns := (wall - loc) * 1000000000 + nsec, offset := loc }

/-- Go `t.AddDate(years, months, days)` for a time whose location has no
transitions. -/
def Time.AddDate (t : Time) (years months days : Int) : Time :=
  Date (t.Year + years) (t.Month + months) (t.Day + days)
    t.Hour t.Minute t.Second t.Nanosecond t.offset

/-- Go `t.Add(d)` for a duration `d` in nanoseconds and a time whose location has
no transitions. -/
def Time.Add (t : Time) (d : Int) : Time := { t with ns := t.ns + d }

/-- Go `t.Sub(u)`: the difference of the instants as a `time.Duration`, which
saturates at the largest and smallest duration. -/
def Time.Sub (t u : Time) : Int :=
  let d := t.ns - u.ns
  if d < minDuration then minDuration else if maxDuration < d then maxDuration else d

/-- The zero `time.Time`, 0001-01-01T00:00:00Z. -/
def zeroTime : Time := { ns := -62135596800000000000, offset := 0 }

/-- Go `Weekday.String()`. -/
def weekdayName (w : Int) : String :=
  if w = 0 then "Sunday" else if w = 1 then "Monday" else if w = 2 then "Tuesday"
  else if w = 3 then "Wednesday" else if w = 4 then "Thursday" else if w = 5 then "Friday"
  else if w = 6 then "Saturday" else "%!Weekday"

/-- Go `Month.String()`. -/
def monthName (m : Int) : String :=
  if m = 1 then "January" else if m = 2 then "February" else if m = 3 then "March"
  else if m = 4 then "April" else if m = 5 then "May" else if m = 6 then "June"
  else if m = 7 then "July" else if m = 8 then "August" else if m = 9 then "September"
  else if m = 10 then "October" else if m = 11 then "November" else if m = 12 then "December"
  else "%!Month"

/-- Go `unicode.ToLower` as far as ASCII results go: the letters A .. Z are mapped
to a .. z, U+0130 (capital I with dot above) to i and U+212A (Kelvin sign) to
k, which are the only runes outside ASCII whose lower case is an ASCII
letter.  Every other rune is kept, where Go may put another rune outside
ASCII in its place. -/
def lowerRune (c : Char) : Char :=
  if c = Char.ofNat 304 then 'i' else if c = Char.ofNat 8490 then 'k' else c.toLower

/-- Go `strings.ToLower`, rune by rune with `lowerRune`.  The scheduler only
compares the result with the lowered ASCII names of weekdays and months, and
every such comparison comes out as in Go. -/
def ToLower (s : String) : String := String.mk (s.data.map lowerRune)

/-! ## Data model (package `chModel`) -/

/-- Modelled from the spec: the type `chModel.FrequencyMetadata`, whose declaration
is outside the scheduler source.  `Days` and `Months` are slices of string
pointers and `Unit` is a string pointer (a nil pointer is `none`); `Time` holds
the outcome of `time.Parse(time.RFC3339, ...)` on the `time` text, `none` when
the text is not a valid RFC3339 timestamp. -/
structure FrequencyMetadata where
  Days : List (Option String)
  Months : List (Option String)
  Unit : Option String
  Time : Option Time
deriving DecidableEq

/-- The `*string` field `Chore.FrequencyMetadata` seen through `json.Unmarshal`:
a nil pointer, text that does not decode, or the decoded record. -/
inductive Payload where
  | absent
  | malformed
  | decoded (m : FrequencyMetadata)
deriving DecidableEq

/-- Modelled from the spec: an entry of `Chore.Assignees`. -/
structure ChoreAssignees where
  UserID : Int
deriving DecidableEq

/-- Modelled from the spec: the fields of `chModel.Chore` that the scheduler reads
or writes. `Frequency` is a Go `int` (64-bit). -/
structure Chore where
  FrequencyType : String
  Frequency : Int
  FrequencyMetadata : Payload
  IsRolling : Bool
  NextDueDate : Option Time
  PeriodStart : Option Time
  PeriodEnd : Option Time
  Assignees : List ChoreAssignees
  AssignedTo : Int
  CreatedBy : Int
  UpdatedAt : Time
deriving DecidableEq

/-- What a call of a function of type `(*time.Time, error)` does: it returns a
pair (a nil pointer and a nil error are `none`), or it panics, or it returns
a date and a nil error where the date depends on what the model leaves out
(the rules of a zone with transitions, 64-bit overflow inside package
`time`). -/
inductive Outcome where
  | returned (date : Option Time) (err : Option String)
  | panicked
  | unmodelled
deriving DecidableEq

/-- The steps, in days, months or years, for which the calls of `Date` and
`AddDate` that take their argument from `chore.Frequency` are modelled: up to
a million either way, far inside the range in which the 64-bit arithmetic of
package `time` is exact for the dates of this calendar. -/
def calendarStep (n : Int) : Prop := -1000000 ≤ n ∧ n ≤ 1000000

instance (n : Int) : Decidable (calendarStep n) := by unfold calendarStep; infer_instance

/-- The date `next` returned with a nil error when the call that computed it is
inside the model. -/
def modelled (inside : Prop) [Decidable inside] (next : Time) : Outcome :=
  if inside then Outcome.returned (some next) none else Outcome.unmodelled

/-- Result of scanning a slice of string pointers for a name. -/
inductive Scan where
  | hit
  | miss
  | crash
deriving DecidableEq

/-! ## The scheduler (`internal/chore/scheduler.go`) -/

/-- The inner loop of the `days_of_the_week` branch:
`for _, day := range frequencyMetadata.Days { if strings.ToLower(*day) == nextDay ... }`.
Dereferencing a nil entry panics. -/
def matchDay (nextDay : String) : List (Option String) → Scan
  | [] => Scan.miss
  | none :: _ => Scan.crash
  | some day :: rest => if ToLower day = nextDay then Scan.hit else matchDay nextDay rest

/-- The inner loop of the `day_of_the_month` branch:
`for _, month := range frequencyMetadata.Months { if *month == nextMonth ... }`.
Dereferencing a nil entry panics. -/
def matchMonth (nextMonth : String) : List (Option String) → Scan
  | [] => Scan.miss
  | none :: _ => Scan.crash
  | some month :: rest => if month = nextMonth then Scan.hit else matchMonth nextMonth rest

/-- The loop `for i := 1; i <= 7; i++` of the `days_of_the_week` branch, with
`remaining` iterations left, the loop counter at `i` and the variable
`nextDueDate` as last assigned.  Leaving the loop falls through to
`return &nextDueDate, nil`. -/
def weekLoop (baseDate : Time) (days : List (Option String)) :
    (remaining : Nat) → (i : Int) → (nextDueDate : Time) → Outcome
  | 0, _, nextDueDate => Outcome.returned (some nextDueDate) none
  | n + 1, i, _ =>
    let nextDueDate := baseDate.AddDate 0 0 i
    let nextDay := ToLower (weekdayName nextDueDate.Weekday)
    match matchDay nextDay days with
    | Scan.hit => Outcome.returned (some nextDueDate) none
    | Scan.crash => Outcome.panicked
    | Scan.miss => weekLoop baseDate days n (i + 1) nextDueDate

/-- The date computed by iteration `i` of the `day_of_the_month` loop. -/
def monthCandidate (baseDate : Time) (frequency : Int) (i : Int) : Time :=
  let nextDueDate := baseDate.AddDate 0 i 0
  Date nextDueDate.Year nextDueDate.Month frequency nextDueDate.Hour nextDueDate.Minute 0 0
    nextDueDate.offset

/-- The loop `for i := 1; i <= 12; i++` of the `day_of_the_month` branch, with
`remaining` iterations left, the loop counter at `i` and the variable
`nextDueDate` as last assigned.  Leaving the loop falls through to
`return &nextDueDate, nil`. -/
def monthLoop (baseDate : Time) (frequency : Int) (months : List (Option String)) :
    (remaining : Nat) → (i : Int) → (nextDueDate : Time) → Outcome
  | 0, _, nextDueDate => Outcome.returned (some nextDueDate) none
  | n + 1, i, _ =>
    let nextDueDate := monthCandidate baseDate frequency i
    let nextMonth := ToLower (monthName nextDueDate.Month)
    match matchMonth nextMonth months with
    | Scan.hit => Outcome.returned (some nextDueDate) none
    | Scan.crash => Outcome.panicked
    | Scan.miss => monthLoop baseDate frequency months n (i + 1) nextDueDate

/-- The `interval` branch once the metadata is decoded: `*frequencyMetadata.Unit`
panics on a nil unit; `time.Hour * time.Duration(chore.Frequency)` and
`chore.Frequency*7` are 64-bit products; the calls of `AddDate` are modelled
for steps within `calendarStep`. -/
def intervalNextDueDate (frequency : Int) (unit : Option String) (baseDate : Time) : Outcome :=
  match unit with
  | none => Outcome.panicked
  | some u =>
    if u = "hours" then
      Outcome.returned (some (baseDate.UTC.Add (wrapInt64 (3600000000000 * frequency)))) none
    else if u = "days" then
      modelled (calendarStep frequency) (baseDate.UTC.AddDate 0 0 frequency)
    else if u = "weeks" then
      modelled (calendarStep (wrapInt64 (frequency * 7)))
        (baseDate.UTC.AddDate 0 0 (wrapInt64 (frequency * 7)))
    else if u = "months" then
      modelled (calendarStep frequency) (baseDate.UTC.AddDate 0 frequency 0)
    else if u = "years" then
      modelled (calendarStep frequency) (baseDate.UTC.AddDate frequency 0 0)
    else
      Outcome.returned none (some "invalid frequency unit, cannot calculate next due date")

/-- Go `calculateBasicNextDueDate(chore, completedDate, baseDate)`.  The branches
that call `AddDate` or `Date` in the location of `baseDate` are modelled for a
location without transitions, and the `day_of_the_month` branch, which passes
`chore.Frequency` as the day, for a frequency within `calendarStep`. -/
def calculateBasicNextDueDate (chore : Chore) (completedDate baseDate : Time) : Outcome :=
  if chore.FrequencyType = "daily" then
    modelled (baseDate.transitions = false) (baseDate.AddDate 0 0 1)
  else if chore.FrequencyType = "weekly" then
    modelled (baseDate.transitions = false) (baseDate.AddDate 0 0 7)
  else if chore.FrequencyType = "monthly" then
    modelled (baseDate.transitions = false) (baseDate.AddDate 0 1 0)
  else if chore.FrequencyType = "yearly" then
    modelled (baseDate.transitions = false) (baseDate.AddDate 1 0 0)
  else if chore.FrequencyType = "adaptive" then
    match chore.NextDueDate with
    | none => Outcome.panicked
    | some due =>
      let diff := completedDate.UTC.Sub due.UTC
      Outcome.returned (some (completedDate.UTC.Add diff)) none
  else if chore.FrequencyType = "interval" then
    match chore.FrequencyMetadata with
    | Payload.absent => Outcome.panicked
    | Payload.malformed => Outcome.returned none (some "error unmarshalling frequency metadata")
    | Payload.decoded frequencyMetadata =>
      intervalNextDueDate chore.Frequency frequencyMetadata.Unit baseDate
  else if chore.FrequencyType = "days_of_the_week" then
    match chore.FrequencyMetadata with
    | Payload.absent => Outcome.panicked
    | Payload.malformed => Outcome.returned none (some "error unmarshalling frequency metadata")
    | Payload.decoded frequencyMetadata =>
      if baseDate.transitions = false then weekLoop baseDate frequencyMetadata.Days 7 1 zeroTime
      else Outcome.unmodelled
  else if chore.FrequencyType = "day_of_the_month" then
    match chore.FrequencyMetadata with
    | Payload.absent => Outcome.panicked
    | Payload.malformed => Outcome.returned none (some "error unmarshalling frequency metadata")
    | Payload.decoded frequencyMetadata =>
      if baseDate.transitions = false ∧ calendarStep chore.Frequency then
        monthLoop baseDate chore.Frequency frequencyMetadata.Months 12 1 zeroTime
      else Outcome.unmodelled
  else if chore.FrequencyType = "no_repeat" ∨ chore.FrequencyType = "trigger" then
    Outcome.returned none none
  else
    Outcome.returned none (some "invalid frequency type, cannot calculate next due date")

/-- A stored period bound moved to `year`: `time.Date(year, p.Month(), p.Day(),
p.Hour(), p.Minute(), 0, 0, time.UTC)`. -/
def anchorPeriod (year : Int) (p : Time) : Time :=
  Date year p.Month p.Day p.Hour p.Minute 0 0 0

/-- Go `adjustForPeriod(chore, nextDueDate)`; `nextDueDate.Year()` panics on a
nil pointer. -/
def adjustForPeriod (chore : Chore) (nextDueDate : Option Time) : Outcome :=
  match chore.PeriodStart, chore.PeriodEnd with
  | some start, some stop =>
    match nextDueDate with
    | none => Outcome.panicked
    | some next =>
      let currentYear := next.Year
      let periodStart := anchorPeriod currentYear start
      let periodEnd := anchorPeriod currentYear stop
      if next.Before periodStart then
        Outcome.returned (some periodStart) none
      else if next.After periodEnd then
        Outcome.returned (some (anchorPeriod (currentYear + 1) start)) none
      else
        Outcome.returned (some next) none
  | _, _ => Outcome.returned nextDueDate none

/-- The base date first chosen by `scheduleNextDueDate`: the previous due date if
there is one, else the completion date, in UTC. -/
def initialBaseDate (chore : Chore) (completedDate : Time) : Time :=
  match chore.NextDueDate with
  | some due => due.UTC
  | none => completedDate.UTC

/-- The base date of `scheduleNextDueDate` before the rolling override: the
initial base date, and for the three types that carry a time of day the same
calendar date at the hour and minute of the metadata time, in the location of
the metadata time when that location has no transitions.  `none` when the
metadata time does not parse. -/
def stampedBaseDate (chore : Chore) (frequencyMetadata : FrequencyMetadata)
    (completedDate : Time) : Option Time :=
  let baseDate := initialBaseDate chore completedDate
  if chore.FrequencyType = "day_of_the_month" ∨ chore.FrequencyType = "days_of_the_week" ∨
      chore.FrequencyType = "interval" then
    match frequencyMetadata.Time with
    | none => none
    | some t => some (Date baseDate.Year baseDate.Month baseDate.Day t.Hour t.Minute 0 0 t.offset)
  else
    some baseDate

/-- Whether the stamped base date is built, by `time.Date` with the location of
the metadata time, in a location with transitions, as when `time.Parse` has
resolved the offset of the metadata time to the local zone of the process. -/
def stampNeedsZoneRules (chore : Chore) (frequencyMetadata : FrequencyMetadata) : Bool :=
  decide (chore.FrequencyType = "day_of_the_month" ∨ chore.FrequencyType = "days_of_the_week" ∨
      chore.FrequencyType = "interval") &&
    (match frequencyMetadata.Time with
    | some t => t.transitions
    | none => false)

/-- The end of `scheduleNextDueDate`, from the outcome of
`calculateBasicNextDueDate`: an error is passed on without a date, an absent
date is returned as it is, and a date goes through `adjustForPeriod`. -/
def finishSchedule (chore : Chore) : Outcome → Outcome
  | Outcome.panicked => Outcome.panicked
  | Outcome.unmodelled => Outcome.unmodelled
  | Outcome.returned _ (some err) => Outcome.returned none (some err)
  | Outcome.returned none none => Outcome.returned none none
  | Outcome.returned (some nextDueDate) none => adjustForPeriod chore (some nextDueDate)

/-- The part of an outcome that does not depend on the base date: the error
returns of `calculateBasicNextDueDate` (invalid frequency type or unit) are
decided by the task alone; every other outcome is left open. -/
def errorOnly : Outcome → Outcome
  | Outcome.returned date (some err) => Outcome.returned date (some err)
  | _ => Outcome.unmodelled

/-- Go `scheduleNextDueDate(chore, completedDate)`.  When the stamped base date
is used (the task is not rolling) and lies in a location with transitions, its
instant is outside the model: only an error return is determined. -/
def scheduleNextDueDate (chore : Chore) (completedDate : Time) : Outcome :=
  match chore.FrequencyMetadata with
  | Payload.absent => Outcome.panicked
  | Payload.malformed => Outcome.returned none (some "error unmarshalling frequency metadata")
  | Payload.decoded frequencyMetadata =>
    if chore.FrequencyType = "once" then
      Outcome.returned none none
    else
      match stampedBaseDate chore frequencyMetadata completedDate with
      | none => Outcome.returned none (some "error parsing time in frequency metadata")
      | some stamped =>
        let baseDate := if chore.IsRolling then completedDate.UTC else stamped
        let result := calculateBasicNextDueDate chore completedDate baseDate
        if chore.IsRolling = false ∧ stampNeedsZoneRules chore frequencyMetadata = true then
          finishSchedule chore (errorOnly result)
        else
          finishSchedule chore result

/-! ## Sample data -/

/-- The UTC time `year-month-day T hour:min:00Z`. -/
def utc (year month day hour min : Int) : Time := Date year month day hour min 0 0 0

/-- A chore with the given recurrence and no period, assignees or history. -/
def sampleChore (frequencyType : String) (frequency : Int) (payload : Payload) (rolling : Bool)
    (due : Option Time) : Chore :=
  { FrequencyType := frequencyType, Frequency := frequency, FrequencyMetadata := payload,
    IsRolling := rolling, NextDueDate := due, PeriodStart := none, PeriodEnd := none,
    Assignees := [], AssignedTo := 0, CreatedBy := 0, UpdatedAt := zeroTime }

/-- Decoded metadata with the given fields. -/
def sampleMeta (days months : List String) (unit : Option String) (time : Option Time) :
    FrequencyMetadata :=
  { Days := days.map some, Months := months.map some, Unit := unit, Time := time }

/-! ## The adaptive estimator and the assignee rotator -/

/-- Modelled from the spec: the type `chModel.ChoreHistory`, a completion record with
its `CompletedAt` timestamp, a `*time.Time` (a nil pointer is `none`).  A nil
entry of the history slice panics at the same expression as a nil `CompletedAt`
and is represented in the same way. -/
structure ChoreHistory where
  CompletedAt : Option Time
deriving DecidableEq

/-- The delays read by the loop of `scheduleAdaptiveNextDueDate`,
`history[i].CompletedAt.UTC().Sub(history[i+1].CompletedAt.UTC())` for
`i = 0 .. len(history)-2`, as durations in nanoseconds; `none` when a
`CompletedAt` pointer is nil and the loop panics. -/
def historyDelays : List ChoreHistory → Option (List Int)
  | a :: b :: rest =>
    match a.CompletedAt, b.CompletedAt, historyDelays (b :: rest) with
    | some x, some y, some delays => some (x.UTC.Sub y.UTC :: delays)
    | _, _, _ => none
  | _ => some []

/-- Go `scheduleAdaptiveNextDueDate(chore, completedDate, history)`.  The float64
computation of the loop, from the delays to the value of
`time.Duration(averageDelay)` (the decayed weighted average in seconds converted
to a 64-bit integer), is outside the model and is the parameter
`averageDelay`; the product with `time.Second` is a 64-bit product. -/
def scheduleAdaptiveNextDueDate (averageDelay : List Int → Int) (chore : Chore)
    (completedDate : Time) (history : List ChoreHistory) : Outcome :=
  let history := { CompletedAt := some completedDate } :: history
  if history.length < 2 then
    match chore.NextDueDate with
    | some due =>
      let diff := completedDate.UTC.Sub due.UTC
      Outcome.returned (some (completedDate.UTC.Add diff)) none
    | none => Outcome.returned none none
  else
    match historyDelays history with
    | none => Outcome.panicked
    | some delays =>
      Outcome.returned
        (some (completedDate.UTC.Add (wrapInt64 (averageDelay delays * 1000000000)))) none

/-- The removal loop of `RemoveAssigneeAndReassign`: the first entry whose `UserID`
is `userID` is cut out of the slice and the loop stops. -/
def removeAssignee (userID : Int) : List ChoreAssignees → List ChoreAssignees
  | [] => []
  | assignee :: rest =>
    if assignee.UserID = userID then rest else assignee :: removeAssignee userID rest

/-- Go `RemoveAssigneeAndReassign(chore, userID)` as a function from the chore
before the call to the chore after it.  The random source and the clock are
parameters: `rand.Intn(n)` returns `draw % n`, so that every value below `n` is
the outcome of some draw, and `time.Now()` returns `now`. -/
def RemoveAssigneeAndReassign (chore : Chore) (userID : Int) (draw : Nat) (now : Time) : Chore :=
  match removeAssignee userID chore.Assignees with
  | [] => { chore with Assignees := [], AssignedTo := chore.CreatedBy, UpdatedAt := now }
  | first :: rest =>
    { chore with
      Assignees := first :: rest
      AssignedTo := ((first :: rest).getD (draw % (rest.length + 1)) first).UserID
      UpdatedAt := now }

/-! ## Reference definitions taken from the specification -/

/-- The time `t` shows the calendar date `year`-`month`-`day` and the clock
reading `hour`:`min`:`sec` with `nsec` nanoseconds, at `loc` seconds east of UTC
in a location without transitions. -/
def hasFields (t : Time) (year month day hour min sec nsec loc : Int) : Prop :=
  t.Year = year ∧ t.Month = month ∧ t.Day = day ∧ t.Hour = hour ∧ t.Minute = min ∧
    t.Second = sec ∧ t.Nanosecond = nsec ∧ t.offset = loc ∧ t.transitions = false

/-- The time `r` is `base` moved to month `month` of year `year` as the calendar
does it: `r` lies `base.Day - 1` whole days after the first day of that month
at the clock reading and offset of `base`, and whenever the day of `base` is at
most 28, so that every month has it, `r` is that day of that month at that
clock reading. -/
def movedToMonth (base : Time) (year month : Int) (r : Time) : Prop :=
  (∃ first : Time,
      hasFields first year month 1 base.Hour base.Minute base.Second base.Nanosecond
        base.offset ∧
      r = { ns := first.ns + (base.Day - 1) * 86400000000000, offset := base.offset }) ∧
    (base.Day ≤ 28 →
      hasFields r year month base.Day base.Hour base.Minute base.Second base.Nanosecond
        base.offset)

/-- The time `r` is `base` plus `n` calendar months: the target month is counted
from the month of `base`, twelve months making a year. -/
def monthsAfter (base : Time) (n : Int) (r : Time) : Prop :=
  movedToMonth base (base.Year + (base.Month - 1 + n) / 12) ((base.Month - 1 + n) % 12 + 1) r

/-- The time `r` is `base` plus `n` calendar years: the same month, `n` years on. -/
def yearsAfter (base : Time) (n : Int) (r : Time) : Prop :=
  movedToMonth base (base.Year + n) base.Month r

/-- The time `r` lies `d` nanoseconds after `base`, at the offset of `base`. -/
def liesAfter (base : Time) (d : Int) (r : Time) : Prop :=
  r = { ns := base.ns + d, offset := base.offset }

/-- The step the specification assigns to a recurrence, as a relation between
the base date and the result: 1 day, 7 days, 1 calendar month, 1 calendar year,
or `frequency` units of the interval unit (an hour of 3600 seconds, a day of 24
hours, a week of 7 days, calendar months, calendar years).  No result for any
other recurrence or unit. -/
def stepsTo (frequencyType : String) (unit : Option String) (frequency : Int)
    (base r : Time) : Prop :=
  if frequencyType = "daily" then liesAfter base 86400000000000 r
  else if frequencyType = "weekly" then liesAfter base (7 * 86400000000000) r
  else if frequencyType = "monthly" then monthsAfter base 1 r
  else if frequencyType = "yearly" then yearsAfter base 1 r
  else if frequencyType = "interval" then
    if unit = some "hours" then liesAfter base (frequency * 3600000000000) r
    else if unit = some "days" then liesAfter base (frequency * 86400000000000) r
    else if unit = some "weeks" then liesAfter base (frequency * (7 * 86400000000000)) r
    else if unit = some "months" then monthsAfter base frequency r
    else if unit = some "years" then yearsAfter base frequency r
    else False
  else False

/-- The base date of an interval task as the specification words it: the UTC
base date with its hour and minute replaced by those of the metadata time,
seconds zero, the date part unchanged, read in UTC. -/
def specStampedBase (base t : Time) : Time :=
  Date base.Year base.Month base.Day t.Hour t.Minute 0 0 0

/-- The closed set of recurrence types of the specification. -/
def frequencyTypes : List String :=
  ["once", "daily", "weekly", "monthly", "yearly", "adaptive", "interval", "days_of_the_week",
    "day_of_the_month", "no_repeat", "trigger"]

/-- The interval units of the specification. -/
def frequencyUnits : List String := ["hours", "days", "weeks", "months", "years"]

/-- The call returned a non-nil error. -/
def Outcome.isError : Outcome → Prop
  | Outcome.returned _ (some _) => True
  | _ => False

/-- Day number of 1 January of year `y`. -/
def newYear (y : Int) : Int := daysFromCivil y 1 1

/-- The date `t` lies inside the active window of year `year`: not before the
start and not after the end, both moved to that year. -/
def inWindow (start stop : Time) (year : Int) (t : Time) : Prop :=
  ¬ t.Before (anchorPeriod year start) ∧ ¬ t.After (anchorPeriod year stop)

/-! ## Calendar lemmas -/

theorem dayOfEra_bounds (z : Int) : 0 ≤ dayOfEra z ∧ dayOfEra z < 146097 := by
  unfold dayOfEra; omega

theorem centuryOfEra_bounds (doe : Int) (h0 : 0 ≤ doe) (h1 : doe < 146097) :
    0 ≤ centuryOfEra doe ∧ centuryOfEra doe ≤ 3 ∧
    0 ≤ dayOfCentury doe ∧ dayOfCentury doe ≤ 36524 := by
  unfold dayOfCentury centuryOfEra
  split <;> omega

theorem yearOfCycle_bounds (r4 : Int) (h0 : 0 ≤ r4) (h1 : r4 < 1461) :
    0 ≤ yearOfCycle r4 ∧ yearOfCycle r4 ≤ 3 ∧
    0 ≤ r4 - 365 * yearOfCycle r4 ∧ r4 - 365 * yearOfCycle r4 ≤ 365 := by
  unfold yearOfCycle
  split <;> omega

theorem yearOfEra_bounds (doe : Int) (h0 : 0 ≤ doe) (h1 : doe < 146097) :
    0 ≤ yearOfEra doe ∧ yearOfEra doe ≤ 399 := by
  have hc := centuryOfEra_bounds doe h0 h1
  have hy := yearOfCycle_bounds (dayOfCentury doe % 1461) (by omega) (by omega)
  simp only [yearOfEra]
  omega

theorem dayOfYear_bounds (doe : Int) (h0 : 0 ≤ doe) (h1 : doe < 146097) :
    0 ≤ dayOfYear doe ∧ dayOfYear doe ≤ 365 := by
  have hc := centuryOfEra_bounds doe h0 h1
  have hy := yearOfCycle_bounds (dayOfCentury doe % 1461) (by omega) (by omega)
  simp only [dayOfYear]
  omega

theorem monthIndex_bounds (z : Int) :
    0 ≤ monthIndex (dayOfYear (dayOfEra z)) ∧ monthIndex (dayOfYear (dayOfEra z)) ≤ 11 := by
  have hb := dayOfEra_bounds z
  have hd := dayOfYear_bounds _ hb.1 hb.2
  unfold monthIndex; omega

theorem civilMonth_bounds (z : Int) : 1 ≤ civilMonth z ∧ civilMonth z ≤ 12 := by
  have hm := monthIndex_bounds z
  simp only [civilMonth]
  split <;> omega

/-- The year and the day of the year put the day of the era back together. -/
theorem dayOfEra_recompose (doe : Int) (h0 : 0 ≤ doe) (h1 : doe < 146097) :
    yearOfEra doe * 365 + yearOfEra doe / 4 - yearOfEra doe / 100 + dayOfYear doe = doe := by
  have hc := centuryOfEra_bounds doe h0 h1
  have hy := yearOfCycle_bounds (dayOfCentury doe % 1461) (by omega) (by omega)
  have hd : dayOfCentury doe = doe - 36524 * centuryOfEra doe := rfl
  simp only [yearOfEra, dayOfYear]
  generalize yearOfCycle (dayOfCentury doe % 1461) = n1 at *
  generalize centuryOfEra doe = n100 at *
  generalize dayOfCentury doe = r100 at *
  have h4 : (100 * n100 + 4 * (r100 / 1461) + n1) / 4 = 25 * n100 + r100 / 1461 := by omega
  have h100 : (100 * n100 + 4 * (r100 / 1461) + n1) / 100 = n100 := by omega
  rw [h4, h100]
  omega

theorem daysFromCivil_of_parts (y m d era yoe mp : Int)
    (hy : (if m ≤ 2 then y - 1 else y) = yoe + 400 * era) (hyoe : 0 ≤ yoe ∧ yoe ≤ 399)
    (hmp : (if m > 2 then m - 3 else m + 9) = mp) :
    daysFromCivil y m d =
      era * 146097 + (yoe * 365 + yoe / 4 - yoe / 100 + ((153 * mp + 2) / 5 + d - 1)) - 719468 := by
  have he : (yoe + 400 * era) / 400 = era := by omega
  have hyo : yoe + 400 * era - era * 400 = yoe := by ring
  simp only [daysFromCivil, hy, hmp, he, hyo]

/-- The day number of the calendar date of a day number is that day number. -/
theorem daysFromCivil_civil (z : Int) :
    daysFromCivil (civilYear z) (civilMonth z) (civilDay z) = z := by
  have hb := dayOfEra_bounds z
  have hy := yearOfEra_bounds _ hb.1 hb.2
  have hr := dayOfEra_recompose _ hb.1 hb.2
  have he : 146097 * eraOf z + dayOfEra z = z + 719468 := by
    unfold eraOf dayOfEra; omega
  have hm := monthIndex_bounds z
  rw [daysFromCivil_of_parts (civilYear z) (civilMonth z) (civilDay z) (eraOf z)
    (yearOfEra (dayOfEra z)) (monthIndex (dayOfYear (dayOfEra z)))]
  · simp only [civilDay]; omega
  · simp only [civilYear, civilMonth]
    split <;> split <;> omega
  · exact hy
  · simp only [civilMonth]
    split <;> split <;> omega

/-- The day argument of `daysFromCivil` counts days. -/
theorem daysFromCivil_add_day (y m d k : Int) :
    daysFromCivil y m (d + k) = daysFromCivil y m d + k := by
  simp only [daysFromCivil]; omega

/-- Rebuilding a time from its own fields with `k` added to the day moves the
instant by `k` days and keeps the location. -/
theorem Date_fields_add_days (t : Time) (k : Int) :
    Date t.Year t.Month (t.Day + k) t.Hour t.Minute t.Second t.Nanosecond t.offset =
      { ns := t.ns + k * 86400000000000, offset := t.offset } := by
  have hm := civilMonth_bounds t.dayNumber
  have hrt := daysFromCivil_civil t.dayNumber
  have h1 : (t.Month - 1) / 12 = 0 := by unfold Time.Month; omega
  have h2 : (t.Month - 1) % 12 + 1 = t.Month := by unfold Time.Month; omega
  simp only [Date, h1, h2, add_zero, daysFromCivil_add_day]
  simp only [Time.Year, Time.Month, Time.Day, hrt]
  simp only [Time.Hour, Time.Minute, Time.Second, Time.Nanosecond, Time.secondOfDay,
    Time.dayNumber, Time.wallSeconds]
  congr 1
  omega

/-- Adding days with `AddDate` moves the instant by whole days. -/
theorem AddDate_days (t : Time) (k : Int) :
    t.AddDate 0 0 k = { ns := t.ns + k * 86400000000000, offset := t.offset } := by
  simp only [Time.AddDate, add_zero]
  exact Date_fields_add_days t k

theorem wrapInt64_of_range (x : Int) (h0 : minDuration ≤ x) (h1 : x ≤ maxDuration) :
    wrapInt64 x = x := by
  unfold minDuration at h0
  unfold maxDuration at h1
  unfold wrapInt64
  omega

theorem UTC_UTC (t : Time) : t.UTC.UTC = t.UTC := rfl

theorem Hour_bounds (t : Time) : 0 ≤ t.Hour ∧ t.Hour ≤ 23 := by
  simp only [Time.Hour, Time.secondOfDay]; omega

theorem Minute_bounds (t : Time) : 0 ≤ t.Minute ∧ t.Minute ≤ 59 := by
  simp only [Time.Minute, Time.secondOfDay]; omega

/-- Wall-clock seconds of a time built by `Date` from the calendar date of `b` and
a clock reading without nanoseconds. -/
theorem wallSeconds_Date_fields (b : Time) (hour min sec loc : Int) :
    (Date b.Year b.Month b.Day hour min sec 0 loc).wallSeconds =
      b.dayNumber * 86400 + hour * 3600 + min * 60 + sec := by
  have hm := civilMonth_bounds b.dayNumber
  have hrt := daysFromCivil_civil b.dayNumber
  have h1 : (b.Month - 1) / 12 = 0 := by unfold Time.Month; omega
  have h2 : (b.Month - 1) % 12 + 1 = b.Month := by unfold Time.Month; omega
  simp only [Date, h1, h2, add_zero, Time.wallSeconds]
  simp only [Time.Year, Time.Month, Time.Day, hrt]
  omega

/-- A time built by `Date` from the calendar date of `b` and a clock reading in
range has that date and that clock reading. -/
theorem Date_clock_fields (b : Time) (hour min loc : Int) (hh : 0 ≤ hour ∧ hour ≤ 23)
    (hmi : 0 ≤ min ∧ min ≤ 59) :
    (Date b.Year b.Month b.Day hour min 0 0 loc).dayNumber = b.dayNumber ∧
    (Date b.Year b.Month b.Day hour min 0 0 loc).Hour = hour ∧
    (Date b.Year b.Month b.Day hour min 0 0 loc).Minute = min ∧
    (Date b.Year b.Month b.Day hour min 0 0 loc).Second = 0 ∧
    (Date b.Year b.Month b.Day hour min 0 0 loc).Nanosecond = 0 := by
  have hw := wallSeconds_Date_fields b hour min 0 loc
  refine ⟨?_, ?_, ?_, ?_, ?_⟩
  · simp only [Time.dayNumber, hw]; omega
  · simp only [Time.Hour, Time.secondOfDay, hw]; omega
  · simp only [Time.Minute, Time.secondOfDay, hw]; omega
  · simp only [Time.Second, Time.secondOfDay, hw]; omega
  · simp only [Time.Nanosecond, Date]; omega

/-- Stamping the hour and minute of `t` on the calendar date of `b` keeps the date
and gives the clock reading `t.Hour : t.Minute : 00` in the location of `t`. -/
theorem Date_stamp_fields (b t : Time) :
    (Date b.Year b.Month b.Day t.Hour t.Minute 0 0 t.offset).dayNumber = b.dayNumber ∧
    (Date b.Year b.Month b.Day t.Hour t.Minute 0 0 t.offset).Hour = t.Hour ∧
    (Date b.Year b.Month b.Day t.Hour t.Minute 0 0 t.offset).Minute = t.Minute ∧
    (Date b.Year b.Month b.Day t.Hour t.Minute 0 0 t.offset).Second = 0 ∧
    (Date b.Year b.Month b.Day t.Hour t.Minute 0 0 t.offset).Nanosecond = 0 :=
  Date_clock_fields b t.Hour t.Minute t.offset (Hour_bounds t) (Minute_bounds t)

theorem civilDay_bounds (z : Int) : 1 ≤ civilDay z ∧ civilDay z ≤ 31 := by
  have hb := dayOfEra_bounds z
  have hd := dayOfYear_bounds _ hb.1 hb.2
  have hm := monthIndex_bounds z
  simp only [civilDay]
  unfold monthIndex at hm ⊢
  omega

/-- A year has at least 365 days. -/
theorem newYear_step (y : Int) : newYear y + 365 ≤ newYear (y + 1) := by
  simp only [newYear, daysFromCivil]
  simp only [show (1 : Int) ≤ 2 from by decide, show ¬ ((1 : Int) > 2) from by decide, if_true,
    if_false]
  omega

theorem newYear_mono_nat (a : Int) (n : Nat) : newYear a ≤ newYear (a + n) := by
  induction n with
  | zero => simp
  | succ n ih =>
    have h := newYear_step (a + n)
    have e : a + ((n + 1 : Nat) : Int) = a + n + 1 := by push_cast; ring
    rw [e]
    omega

theorem newYear_mono (a b : Int) (h : a ≤ b) : newYear a ≤ newYear b := by
  have e : b = a + ((b - a).toNat : Int) := by omega
  rw [e]
  exact newYear_mono_nat a _

/-- A date with a month in 1 .. 12 and a day in 1 .. 31 lies in its year, also when
the day overflows into the next month. -/
theorem daysFromCivil_in_year (y m d : Int) (hm1 : 1 ≤ m) (hm12 : m ≤ 12) (hd1 : 1 ≤ d)
    (hd31 : d ≤ 31) : newYear y ≤ daysFromCivil y m d ∧ daysFromCivil y m d < newYear (y + 1) := by
  simp only [newYear, daysFromCivil]
  simp only [show (1 : Int) ≤ 2 from by decide, show ¬ ((1 : Int) > 2) from by decide, if_true,
    if_false]
  by_cases h : m ≤ 2
  · have h' : ¬ m > 2 := by omega
    simp only [h, h', if_true, if_false]
    omega
  · have h' : m > 2 := by omega
    simp only [h, h', if_true, if_false]
    omega

/-- The day number `z` lies in the year `civilYear z`. -/
theorem civil_in_year (z : Int) :
    newYear (civilYear z) ≤ z ∧ z < newYear (civilYear z + 1) := by
  have hm := civilMonth_bounds z
  have hd := civilDay_bounds z
  have h := daysFromCivil_in_year (civilYear z) (civilMonth z) (civilDay z) hm.1 hm.2 hd.1 hd.2
  rw [daysFromCivil_civil] at h
  exact h

/-- The year of a day number is the only year it lies in. -/
theorem civilYear_unique (z y : Int) (h0 : newYear y ≤ z) (h1 : z < newYear (y + 1)) :
    civilYear z = y := by
  have hc := civil_in_year z
  by_contra hne
  rcases lt_or_gt_of_ne hne with hlt | hgt
  · have := newYear_mono (civilYear z + 1) y (by omega)
    omega
  · have := newYear_mono (y + 1) (civilYear z) (by omega)
    omega

theorem civilYear_daysFromCivil (y m d : Int) (hm1 : 1 ≤ m) (hm12 : m ≤ 12) (hd1 : 1 ≤ d)
    (hd31 : d ≤ 31) : civilYear (daysFromCivil y m d) = y := by
  have h := daysFromCivil_in_year y m d hm1 hm12 hd1 hd31
  exact civilYear_unique _ _ h.1 h.2

theorem Month_bounds (t : Time) : 1 ≤ t.Month ∧ t.Month ≤ 12 := civilMonth_bounds _

theorem Day_bounds (t : Time) : 1 ≤ t.Day ∧ t.Day ≤ 31 := civilDay_bounds _

/-- Wall-clock seconds of a time built by `Date` from a month in 1 .. 12 and a
clock reading without nanoseconds. -/
theorem wallSeconds_Date (y m d hour min sec loc : Int) (hm1 : 1 ≤ m) (hm12 : m ≤ 12) :
    (Date y m d hour min sec 0 loc).wallSeconds =
      daysFromCivil y m d * 86400 + hour * 3600 + min * 60 + sec := by
  have h1 : (m - 1) / 12 = 0 := by omega
  have h2 : (m - 1) % 12 + 1 = m := by omega
  simp only [Date, h1, h2, add_zero, Time.wallSeconds]
  omega

/-- The fields of a time built by `Date` from a month in 1 .. 12 and a clock
reading in range. -/
theorem Date_fields (y m d hour min loc : Int) (hm1 : 1 ≤ m) (hm12 : m ≤ 12)
    (hh : 0 ≤ hour ∧ hour ≤ 23) (hmi : 0 ≤ min ∧ min ≤ 59) :
    (Date y m d hour min 0 0 loc).dayNumber = daysFromCivil y m d ∧
    (Date y m d hour min 0 0 loc).Hour = hour ∧
    (Date y m d hour min 0 0 loc).Minute = min ∧
    (Date y m d hour min 0 0 loc).Second = 0 ∧
    (Date y m d hour min 0 0 loc).Nanosecond = 0 := by
  have hw := wallSeconds_Date y m d hour min 0 loc hm1 hm12
  refine ⟨?_, ?_, ?_, ?_, ?_⟩
  · simp only [Time.dayNumber, hw]; omega
  · simp only [Time.Hour, Time.secondOfDay, hw]; omega
  · simp only [Time.Minute, Time.secondOfDay, hw]; omega
  · simp only [Time.Second, Time.secondOfDay, hw]; omega
  · simp only [Time.Nanosecond, Date]; omega

/-- A stored period bound moved to `year` lies in that year, on the day number of
the stored month and day in that year, at the stored hour and minute, in UTC. -/
theorem anchorPeriod_fields (year : Int) (p : Time) :
    (anchorPeriod year p).dayNumber = daysFromCivil year p.Month p.Day ∧
    (anchorPeriod year p).Year = year ∧
    (anchorPeriod year p).offset = 0 ∧
    (anchorPeriod year p).Hour = p.Hour ∧
    (anchorPeriod year p).Minute = p.Minute ∧
    (anchorPeriod year p).Second = 0 ∧
    (anchorPeriod year p).Nanosecond = 0 := by
  have hm := Month_bounds p
  have hd := Day_bounds p
  have hf := Date_fields year p.Month p.Day p.Hour p.Minute 0 hm.1 hm.2 (Hour_bounds p)
    (Minute_bounds p)
  refine ⟨hf.1, ?_, rfl, hf.2.1, hf.2.2.1, hf.2.2.2.1, hf.2.2.2.2⟩
  have hy : (anchorPeriod year p).Year = civilYear (daysFromCivil year p.Month p.Day) :=
    congrArg civilYear hf.1
  rw [hy]
  exact civilYear_daysFromCivil year p.Month p.Day hm.1 hm.2 hd.1 hd.2

/-- The instant of a stored period bound moved to `year`. -/
theorem anchorPeriod_ns (year : Int) (p : Time) :
    (anchorPeriod year p).ns =
      (daysFromCivil year p.Month p.Day * 86400 + p.Hour * 3600 + p.Minute * 60) * 1000000000 := by
  have hm := Month_bounds p
  have h1 : (p.Month - 1) / 12 = 0 := by omega
  have h2 : (p.Month - 1) % 12 + 1 = p.Month := by omega
  simp only [anchorPeriod, Date, h1, h2, add_zero, sub_zero]

/-- The instant of a time lies before the end of its year, read in its location. -/
theorem ns_lt_next_newYear (t : Time) :
    t.ns < (newYear (t.Year + 1) * 86400 - t.offset) * 1000000000 := by
  have h := (civil_in_year t.dayNumber).2
  have hy : civilYear t.dayNumber = t.Year := rfl
  rw [hy] at h
  generalize newYear (t.Year + 1) = n at *
  simp only [Time.dayNumber, Time.wallSeconds] at h
  omega

/-- The cycles give back the year of the era and the day of the year they were
built from, for a day that is not the last of a leap year. -/
theorem cycles_of_parts (yoe doy : Int) (hy0 : 0 ≤ yoe) (hy1 : yoe ≤ 399) (hd0 : 0 ≤ doy)
    (hd1 : doy ≤ 364) :
    yearOfEra (yoe * 365 + yoe / 4 - yoe / 100 + doy) = yoe ∧
    dayOfYear (yoe * 365 + yoe / 4 - yoe / 100 + doy) = doy := by
  have hc : centuryOfEra (yoe * 365 + yoe / 4 - yoe / 100 + doy) = yoe / 100 := by
    have h : (yoe * 365 + yoe / 4 - yoe / 100 + doy) / 36524 = yoe / 100 := by omega
    unfold centuryOfEra
    rw [h]
    split <;> omega
  have hr : dayOfCentury (yoe * 365 + yoe / 4 - yoe / 100 + doy) =
      365 * (yoe % 100) + (yoe % 100) / 4 + doy := by
    unfold dayOfCentury
    rw [hc]
    omega
  have h4 : (365 * (yoe % 100) + (yoe % 100) / 4 + doy) / 1461 = (yoe % 100) / 4 := by omega
  have hm : (365 * (yoe % 100) + (yoe % 100) / 4 + doy) % 1461 = 365 * (yoe % 4) + doy := by omega
  have hcy : yearOfCycle (365 * (yoe % 4) + doy) = yoe % 4 := by
    have h : (365 * (yoe % 4) + doy) / 365 = yoe % 4 := by omega
    unfold yearOfCycle
    rw [h]
    split <;> omega
  constructor
  · simp only [yearOfEra, hc, hr, h4, hm, hcy]
    omega
  · simp only [dayOfYear, hr, hm, hcy]
    omega

theorem monthIndex_of_parts (mp d : Int) (h0 : 0 ≤ mp) (h11 : mp ≤ 11) (hd1 : 1 ≤ d)
    (hd31 : d ≤ 31) (h30 : mp = 1 ∨ mp = 3 ∨ mp = 6 ∨ mp = 8 → d ≤ 30) (h28 : mp = 11 → d ≤ 28) :
    monthIndex ((153 * mp + 2) / 5 + d - 1) = mp := by
  unfold monthIndex
  interval_cases mp <;> omega

/-- The month and the day of a valid calendar date other than 29 February are
read back from its day number. -/
theorem civil_of_daysFromCivil (y m d : Int) (hm1 : 1 ≤ m) (hm12 : m ≤ 12) (hd1 : 1 ≤ d)
    (hd31 : d ≤ 31) (h30 : m = 4 ∨ m = 6 ∨ m = 9 ∨ m = 11 → d ≤ 30) (h28 : m = 2 → d ≤ 28) :
    civilMonth (daysFromCivil y m d) = m ∧ civilDay (daysFromCivil y m d) = d := by
  obtain ⟨y1, hy1⟩ : ∃ y1, y1 = (if m ≤ 2 then y - 1 else y) := ⟨_, rfl⟩
  obtain ⟨mp, hmp⟩ : ∃ mp, mp = (if m > 2 then m - 3 else m + 9) := ⟨_, rfl⟩
  have hmpb : 0 ≤ mp ∧ mp ≤ 11 ∧ (mp < 10 → m = mp + 3) ∧ (¬ mp < 10 → m = mp - 9) := by
    rw [hmp]; split <;> omega
  have hyoe : 0 ≤ y1 - y1 / 400 * 400 ∧ y1 - y1 / 400 * 400 ≤ 399 := by omega
  have hparts := daysFromCivil_of_parts y m d (y1 / 400) (y1 - y1 / 400 * 400) mp
    (by rw [← hy1]; ring) hyoe hmp.symm
  have hmi := monthIndex_of_parts mp d hmpb.1 hmpb.2.1 hd1 hd31 (by omega) (by omega)
  have hdoy : 0 ≤ (153 * mp + 2) / 5 + d - 1 ∧ (153 * mp + 2) / 5 + d - 1 ≤ 364 := by omega
  have hcyc := cycles_of_parts (y1 - y1 / 400 * 400) ((153 * mp + 2) / 5 + d - 1) hyoe.1 hyoe.2
    hdoy.1 hdoy.2
  generalize y1 - y1 / 400 * 400 = yoe at *
  generalize y1 / 400 = era at *
  have hdoe : dayOfEra (daysFromCivil y m d) =
      yoe * 365 + yoe / 4 - yoe / 100 + ((153 * mp + 2) / 5 + d - 1) := by
    rw [hparts]
    unfold dayOfEra
    omega
  constructor
  · simp only [civilMonth, hdoe, hcyc.2, hmi]
    split <;> omega
  · simp only [civilDay, hdoe, hcyc.2, hmi]
    omega

/-- The day of the month of a calendar date exists in its month, February taken
with 29 days. -/
theorem civilDay_valid (z : Int) :
    (civilMonth z = 4 ∨ civilMonth z = 6 ∨ civilMonth z = 9 ∨ civilMonth z = 11 →
      civilDay z ≤ 30) ∧
    (civilMonth z = 2 → civilDay z ≤ 29) := by
  have hb := dayOfEra_bounds z
  have hd := dayOfYear_bounds _ hb.1 hb.2
  have hm := monthIndex_bounds z
  simp only [civilMonth, civilDay]
  generalize dayOfYear (dayOfEra z) = doy at *
  unfold monthIndex at hm ⊢
  constructor
  · split <;> omega
  · split <;> omega

/-- A stored period bound other than 29 February keeps its month and day when it
is moved to another year. -/
theorem anchorPeriod_month_day (year : Int) (p : Time) (h : ¬ (p.Month = 2 ∧ p.Day = 29)) :
    (anchorPeriod year p).Month = p.Month ∧ (anchorPeriod year p).Day = p.Day := by
  have hm := Month_bounds p
  have hd := Day_bounds p
  have hv := civilDay_valid p.dayNumber
  have hday := (anchorPeriod_fields year p).1
  have hc := civil_of_daysFromCivil year p.Month p.Day hm.1 hm.2 hd.1 hd.2 hv.1
    (fun h2 => by
      have := hv.2 h2
      have hne : p.Day ≠ 29 := fun h29 => h ⟨h2, h29⟩
      have hle : p.Day ≤ 29 := this
      omega)
  constructor
  · have e : (anchorPeriod year p).Month = civilMonth (daysFromCivil year p.Month p.Day) :=
      congrArg civilMonth hday
    rw [e]; exact hc.1
  · have e : (anchorPeriod year p).Day = civilDay (daysFromCivil year p.Month p.Day) :=
      congrArg civilDay hday
    rw [e]; exact hc.2

/-! ## Calendar months and years -/

theorem Second_bounds (t : Time) : 0 ≤ t.Second ∧ t.Second ≤ 59 := by
  simp only [Time.Second, Time.secondOfDay]; omega

theorem Nanosecond_bounds (t : Time) : 0 ≤ t.Nanosecond ∧ t.Nanosecond ≤ 999999999 := by
  simp only [Time.Nanosecond]; omega

theorem UTC_transitions (t : Time) : t.UTC.transitions = false := rfl

theorem modelled_inside (inside : Prop) [Decidable inside] (next : Time) (h : inside) :
    modelled inside next = Outcome.returned (some next) none := by
  simp only [modelled, h, if_true]

/-- Wall-clock seconds of a time built by `Date` from a month in 1 .. 12 and
nanoseconds below one second. -/
theorem wallSeconds_Date_nsec (y m d hour min sec nsec loc : Int) (hm1 : 1 ≤ m) (hm12 : m ≤ 12)
    (hn : 0 ≤ nsec ∧ nsec ≤ 999999999) :
    (Date y m d hour min sec nsec loc).wallSeconds =
      daysFromCivil y m d * 86400 + hour * 3600 + min * 60 + sec := by
  have h1 : (m - 1) / 12 = 0 := by omega
  have h2 : (m - 1) % 12 + 1 = m := by omega
  simp only [Date, h1, h2, add_zero, Time.wallSeconds]
  omega

/-- The day number and the clock reading of a time built by `Date` from a month
in 1 .. 12 and a clock reading in range. -/
theorem Date_clock (y m d hour min sec nsec loc : Int) (hm1 : 1 ≤ m) (hm12 : m ≤ 12)
    (hh : 0 ≤ hour ∧ hour ≤ 23) (hmi : 0 ≤ min ∧ min ≤ 59) (hs : 0 ≤ sec ∧ sec ≤ 59)
    (hn : 0 ≤ nsec ∧ nsec ≤ 999999999) :
    (Date y m d hour min sec nsec loc).dayNumber = daysFromCivil y m d ∧
    (Date y m d hour min sec nsec loc).Hour = hour ∧
    (Date y m d hour min sec nsec loc).Minute = min ∧
    (Date y m d hour min sec nsec loc).Second = sec ∧
    (Date y m d hour min sec nsec loc).Nanosecond = nsec := by
  have hw := wallSeconds_Date_nsec y m d hour min sec nsec loc hm1 hm12 hn
  refine ⟨?_, ?_, ?_, ?_, ?_⟩
  · simp only [Time.dayNumber, hw]; omega
  · simp only [Time.Hour, Time.secondOfDay, hw]; omega
  · simp only [Time.Minute, Time.secondOfDay, hw]; omega
  · simp only [Time.Second, Time.secondOfDay, hw]; omega
  · simp only [Time.Nanosecond, Date]; omega

/-- A time built by `Date` from a month in 1 .. 12, a day in 1 .. 28 and a clock
reading in range shows exactly these fields. -/
theorem hasFields_Date (y m d hour min sec nsec loc : Int) (hm1 : 1 ≤ m) (hm12 : m ≤ 12)
    (hd1 : 1 ≤ d) (hd28 : d ≤ 28)
    (hh : 0 ≤ hour ∧ hour ≤ 23) (hmi : 0 ≤ min ∧ min ≤ 59) (hs : 0 ≤ sec ∧ sec ≤ 59)
    (hn : 0 ≤ nsec ∧ nsec ≤ 999999999) :
    hasFields (Date y m d hour min sec nsec loc) y m d hour min sec nsec loc := by
  have hc := Date_clock y m d hour min sec nsec loc hm1 hm12 hh hmi hs hn
  have hy := civilYear_daysFromCivil y m d hm1 hm12 hd1 (by omega)
  have hmd := civil_of_daysFromCivil y m d hm1 hm12 hd1 (by omega) (fun _ => by omega)
    (fun _ => hd28)
  refine ⟨?_, ?_, ?_, hc.2.1, hc.2.2.1, hc.2.2.2.1, hc.2.2.2.2, rfl, rfl⟩
  · simp only [Time.Year, hc.1, hy]
  · simp only [Time.Month, hc.1, hmd.1]
  · simp only [Time.Day, hc.1, hmd.2]

/-- The fields of `hasFields` determine the time. -/
theorem hasFields_unique (a b : Time) (year month day hour min sec nsec loc : Int)
    (ha : hasFields a year month day hour min sec nsec loc)
    (hb : hasFields b year month day hour min sec nsec loc) : a = b := by
  obtain ⟨ay, am, ad, ah, ami, as, an, ao, atr⟩ := ha
  obtain ⟨bY, bm, bd, bh, bmi, bs, bn, bo, btr⟩ := hb
  have hda : a.dayNumber = daysFromCivil year month day := by
    have := daysFromCivil_civil a.dayNumber
    simp only [Time.Year, Time.Month, Time.Day] at ay am ad
    rw [ay, am, ad] at this
    exact this.symm
  have hdb : b.dayNumber = daysFromCivil year month day := by
    have := daysFromCivil_civil b.dayNumber
    simp only [Time.Year, Time.Month, Time.Day] at bY bm bd
    rw [bY, bm, bd] at this
    exact this.symm
  have hdn : a.dayNumber = b.dayNumber := hda.trans hdb.symm
  have hns : a.ns = b.ns := by
    simp only [Time.Hour, Time.Minute, Time.Second, Time.Nanosecond, Time.secondOfDay,
      Time.dayNumber, Time.wallSeconds] at ah ami as an bh bmi bs bn hdn
    omega
  cases a
  cases b
  simp only [Time.mk.injEq]
  exact ⟨hns, ao.trans bo.symm, atr.trans btr.symm⟩

/-- The general form of `AddDate` without days: the result is the time moved to
the month that lies `months` months after the month of `t`, `years` years on. -/
theorem AddDate_movedToMonth (t : Time) (years months : Int) :
    movedToMonth t (t.Year + years + (t.Month - 1 + months) / 12)
      ((t.Month - 1 + months) % 12 + 1) (t.AddDate years months 0) := by
  have hd := Day_bounds t
  have hh := Hour_bounds t
  have hmi := Minute_bounds t
  have hs := Second_bounds t
  have hn := Nanosecond_bounds t
  obtain ⟨Y, hY⟩ : ∃ Y, Y = t.Year + years + (t.Month - 1 + months) / 12 := ⟨_, rfl⟩
  obtain ⟨M, hM⟩ : ∃ M, M = (t.Month - 1 + months) % 12 + 1 := ⟨_, rfl⟩
  have hMb : 1 ≤ M ∧ M ≤ 12 := by omega
  have hdate : ∀ d : Int, Date (t.Year + years) (t.Month + months) d t.Hour t.Minute t.Second
      t.Nanosecond t.offset = Date Y M d t.Hour t.Minute t.Second t.Nanosecond t.offset := by
    intro d
    have e1 : t.Month + months - 1 = t.Month - 1 + months := by ring
    have e2 : (M - 1) / 12 = 0 := by omega
    have e3 : (M - 1) % 12 + 1 = M := by omega
    simp only [Date, e1, e2, e3, add_zero, ← hY, ← hM]
  have hres : t.AddDate years months 0 =
      Date Y M t.Day t.Hour t.Minute t.Second t.Nanosecond t.offset := by
    simp only [Time.AddDate, add_zero]
    exact hdate t.Day
  rw [← hY, ← hM, hres]
  refine ⟨⟨Date Y M 1 t.Hour t.Minute t.Second t.Nanosecond t.offset,
    hasFields_Date Y M 1 _ _ _ _ _ hMb.1 hMb.2 (by omega) (by omega) hh hmi hs hn, ?_⟩, ?_⟩
  · have e1 : (M - 1) / 12 = 0 := by omega
    have e2 : (M - 1) % 12 + 1 = M := by omega
    have e3 : daysFromCivil Y M t.Day = daysFromCivil Y M 1 + (t.Day - 1) := by
      rw [← daysFromCivil_add_day]; congr 1; ring
    simp only [Date, e1, e2, add_zero, e3]
    congr 1
    ring
  · intro h28
    exact hasFields_Date Y M t.Day _ _ _ _ _ hMb.1 hMb.2 hd.1 h28 hh hmi hs hn

/-- The result of `AddDate(0, n, 0)` is the time plus `n` calendar months. -/
theorem AddDate_monthsAfter (t : Time) (n : Int) : monthsAfter t n (t.AddDate 0 n 0) := by
  have h := AddDate_movedToMonth t 0 n
  simp only [add_zero] at h
  exact h

/-- The result of `AddDate(n, 0, 0)` is the time plus `n` calendar years. -/
theorem AddDate_yearsAfter (t : Time) (n : Int) : yearsAfter t n (t.AddDate n 0 0) := by
  have h := AddDate_movedToMonth t n 0
  have hm := Month_bounds t
  have e1 : (t.Month - 1 + 0) / 12 = 0 := by omega
  have e2 : (t.Month - 1 + 0) % 12 + 1 = t.Month := by omega
  rw [e1, e2, add_zero] at h
  exact h

/-- The result of `AddDate(0, 0, k)` lies `k` days of 24 hours after the time. -/
theorem AddDate_liesAfter (t : Time) (k : Int) :
    liesAfter t (k * 86400000000000) (t.AddDate 0 0 k) := AddDate_days t k

/-! ## Weighted averages -/

theorem adjustForPeriod_no_period (chore : Chore) (next : Option Time)
    (h : chore.PeriodStart = none ∨ chore.PeriodEnd = none) :
    adjustForPeriod chore next = Outcome.returned next none := by
  unfold adjustForPeriod
  rcases h with h | h
  · rw [h]
  · rw [h]
    cases chore.PeriodStart <;> rfl

/-- How `scheduleNextDueDate` continues once the metadata has decoded, the type is
not `once`, and the base date has been stamped. -/
theorem schedule_of_stamped (chore : Chore) (completedDate stamped : Time)
    (m : FrequencyMetadata) (hmeta : chore.FrequencyMetadata = Payload.decoded m)
    (honce : chore.FrequencyType ≠ "once")
    (hst : stampedBaseDate chore m completedDate = some stamped)
    (hzone : chore.IsRolling = true ∨ stampNeedsZoneRules chore m = false) :
    scheduleNextDueDate chore completedDate =
      finishSchedule chore (calculateBasicNextDueDate chore completedDate
        (if chore.IsRolling then completedDate.UTC else stamped)) := by
  have hz : ¬ (chore.IsRolling = false ∧ stampNeedsZoneRules chore m = true) := by
    rintro ⟨h1, h2⟩
    rcases hzone with h | h
    · rw [h1] at h; exact Bool.noConfusion h
    · rw [h2] at h; exact Bool.noConfusion h
  unfold scheduleNextDueDate
  simp only [hmeta, honce, if_false, hst, hz]

/-- A type that carries no time of day builds no date in the location of the
metadata time. -/
theorem stampNeedsZoneRules_plain (chore : Chore) (m : FrequencyMetadata)
    (h1 : chore.FrequencyType ≠ "day_of_the_month")
    (h2 : chore.FrequencyType ≠ "days_of_the_week")
    (h3 : chore.FrequencyType ≠ "interval") : stampNeedsZoneRules chore m = false := by
  simp [stampNeedsZoneRules, h1, h2, h3]

/-- A metadata time in a location without transitions needs no zone rules. -/
theorem stampNeedsZoneRules_fixed (chore : Chore) (m : FrequencyMetadata) (t : Time)
    (ht : m.Time = some t) (hfix : t.transitions = false) :
    stampNeedsZoneRules chore m = false := by
  simp [stampNeedsZoneRules, ht, hfix]

/-- The base date of a type that carries no time of day. -/
theorem stampedBaseDate_plain (chore : Chore) (m : FrequencyMetadata) (completedDate : Time)
    (h1 : chore.FrequencyType ≠ "day_of_the_month")
    (h2 : chore.FrequencyType ≠ "days_of_the_week")
    (h3 : chore.FrequencyType ≠ "interval") :
    stampedBaseDate chore m completedDate = some (initialBaseDate chore completedDate) := by
  unfold stampedBaseDate
  simp only [h1, h2, h3, or_self, if_false]

/-- The base date of a type that carries a time of day. -/
theorem stampedBaseDate_timed (chore : Chore) (m : FrequencyMetadata) (completedDate t : Time)
    (h : chore.FrequencyType = "day_of_the_month" ∨ chore.FrequencyType = "days_of_the_week" ∨
      chore.FrequencyType = "interval")
    (ht : m.Time = some t) :
    stampedBaseDate chore m completedDate =
      some (Date (initialBaseDate chore completedDate).Year
        (initialBaseDate chore completedDate).Month (initialBaseDate chore completedDate).Day
        t.Hour t.Minute 0 0 t.offset) := by
  unfold stampedBaseDate
  simp only [h, if_true, ht]

theorem initialBaseDate_of_due (chore : Chore) (completedDate due : Time)
    (h : chore.NextDueDate = some due) : initialBaseDate chore completedDate = due.UTC := by
  unfold initialBaseDate; rw [h]

/-! ## Claims -/

/-- C1 (as stated, refuted): a `once` task whose metadata payload does not decode
gets an error from `scheduleNextDueDate`, not the pair of no date and no error. -/
theorem C1_counterexample :
    scheduleNextDueDate (sampleChore "once" 1 Payload.malformed false none) (utc 2024 1 1 9 0) =
        Outcome.returned none (some "error unmarshalling frequency metadata") ∧
      scheduleNextDueDate (sampleChore "once" 1 Payload.malformed false none) (utc 2024 1 1 9 0) ≠
        Outcome.returned none none := by
  decide

/-- C1 (amended): for every task whose frequencyType is once, no_repeat or trigger
and whose metadata payload is present and decodes, and for every completion
timestamp, `scheduleNextDueDate` returns no next date and no error, whatever the
other fields are. -/
theorem C1_terminal_types_return_nothing (chore : Chore) (completedDate : Time)
    (m : FrequencyMetadata) (hmeta : chore.FrequencyMetadata = Payload.decoded m)
    (htype : chore.FrequencyType = "once" ∨ chore.FrequencyType = "no_repeat" ∨
      chore.FrequencyType = "trigger") :
    scheduleNextDueDate chore completedDate = Outcome.returned none none := by
  rcases htype with h | h | h
  · unfold scheduleNextDueDate
    simp only [hmeta, h, if_true]
  · rw [schedule_of_stamped chore completedDate _ m hmeta (by rw [h]; decide)
      (stampedBaseDate_plain chore m completedDate (by rw [h]; decide) (by rw [h]; decide)
        (by rw [h]; decide))
      (Or.inr (stampNeedsZoneRules_plain chore m (by rw [h]; decide) (by rw [h]; decide)
        (by rw [h]; decide)))]
    simp [calculateBasicNextDueDate, h, finishSchedule]
  · rw [schedule_of_stamped chore completedDate _ m hmeta (by rw [h]; decide)
      (stampedBaseDate_plain chore m completedDate (by rw [h]; decide) (by rw [h]; decide)
        (by rw [h]; decide))
      (Or.inr (stampNeedsZoneRules_plain chore m (by rw [h]; decide) (by rw [h]; decide)
        (by rw [h]; decide)))]
    simp [calculateBasicNextDueDate, h, finishSchedule]

theorem C1_terminal_types_return_nothing_witness :
    scheduleNextDueDate
        (sampleChore "trigger" 3 (Payload.decoded (sampleMeta [] [] none none)) true none)
        (utc 2024 1 1 9 0) = Outcome.returned none none :=
  C1_terminal_types_return_nothing _ _ (sampleMeta [] [] none none) rfl (Or.inr (Or.inr rfl))

/-- The result of `scheduleNextDueDate` for a task without an active period whose
basic computation returns a date. -/
theorem schedule_of_basic_date (chore : Chore) (completedDate stamped next : Time)
    (m : FrequencyMetadata) (hmeta : chore.FrequencyMetadata = Payload.decoded m)
    (honce : chore.FrequencyType ≠ "once")
    (hst : stampedBaseDate chore m completedDate = some stamped)
    (hzone : chore.IsRolling = true ∨ stampNeedsZoneRules chore m = false)
    (hperiod : chore.PeriodStart = none ∨ chore.PeriodEnd = none)
    (hcalc : calculateBasicNextDueDate chore completedDate
      (if chore.IsRolling then completedDate.UTC else stamped) =
        Outcome.returned (some next) none) :
    scheduleNextDueDate chore completedDate = Outcome.returned (some next) none := by
  rw [schedule_of_stamped chore completedDate stamped m hmeta honce hst hzone, hcalc]
  exact adjustForPeriod_no_period chore (some next) hperiod

theorem adjustForPeriod_some (chore : Chore) (next : Time) :
    ∃ adjusted, adjustForPeriod chore (some next) = Outcome.returned (some adjusted) none := by
  unfold adjustForPeriod
  cases chore.PeriodStart with
  | none => exact ⟨next, rfl⟩
  | some start =>
    cases chore.PeriodEnd with
    | none => exact ⟨next, rfl⟩
    | some stop =>
      simp only
      split
      · exact ⟨_, rfl⟩
      · split
        · exact ⟨_, rfl⟩
        · exact ⟨_, rfl⟩

/-- The end of `scheduleNextDueDate` returns an error exactly when the basic
computation did, with the same message and without a date. -/
theorem finishSchedule_error (chore : Chore) (o : Outcome) :
    ((finishSchedule chore o).isError ↔ o.isError) ∧
    (∀ date err, o = Outcome.returned date (some err) →
      finishSchedule chore o = Outcome.returned none (some err)) ∧
    (∀ date err, finishSchedule chore o = Outcome.returned date (some err) → date = none) := by
  cases o with
  | panicked => simp [finishSchedule, Outcome.isError]
  | unmodelled => simp [finishSchedule, Outcome.isError]
  | returned date err =>
    cases err with
    | some e => simp [finishSchedule, Outcome.isError]
    | none =>
      cases date with
      | none => simp [finishSchedule, Outcome.isError]
      | some d =>
        obtain ⟨a, ha⟩ := adjustForPeriod_some chore d
        simp [finishSchedule, Outcome.isError, ha]

/-- How `scheduleNextDueDate` continues once the metadata has decoded, the type is
not `once`, and the base date has been stamped, whatever the location of the
metadata time: on an outcome that is an error exactly when the basic
computation returns an error, and then the same one. -/
theorem schedule_of_stamped_error (chore : Chore) (completedDate stamped : Time)
    (m : FrequencyMetadata) (hmeta : chore.FrequencyMetadata = Payload.decoded m)
    (honce : chore.FrequencyType ≠ "once")
    (hst : stampedBaseDate chore m completedDate = some stamped) :
    ∃ o, scheduleNextDueDate chore completedDate = finishSchedule chore o ∧
      (o.isError ↔ (calculateBasicNextDueDate chore completedDate
        (if chore.IsRolling then completedDate.UTC else stamped)).isError) ∧
      (∀ date err, calculateBasicNextDueDate chore completedDate
          (if chore.IsRolling then completedDate.UTC else stamped) =
            Outcome.returned date (some err) →
        o = Outcome.returned date (some err)) := by
  by_cases hz : chore.IsRolling = false ∧ stampNeedsZoneRules chore m = true
  · refine ⟨errorOnly (calculateBasicNextDueDate chore completedDate
      (if chore.IsRolling then completedDate.UTC else stamped)), ?_, ?_, ?_⟩
    · unfold scheduleNextDueDate
      simp only [hmeta, honce, if_false, hst, hz, and_self, if_true]
    · cases calculateBasicNextDueDate chore completedDate
          (if chore.IsRolling then completedDate.UTC else stamped) with
      | panicked => simp [errorOnly, Outcome.isError]
      | unmodelled => simp [errorOnly, Outcome.isError]
      | returned date err =>
        cases err <;> simp [errorOnly, Outcome.isError]
    · intro date err h
      rw [h]
      rfl
  · refine ⟨calculateBasicNextDueDate chore completedDate
      (if chore.IsRolling then completedDate.UTC else stamped), ?_, Iff.rfl, fun _ _ h => h⟩
    unfold scheduleNextDueDate
    simp only [hmeta, honce, if_false, hst, hz]

theorem weekLoop_outcome (baseDate : Time) (days : List (Option String)) (n : Nat) :
    ∀ (i : Int) (last : Time), weekLoop baseDate days n i last = Outcome.panicked ∨
      ∃ next, weekLoop baseDate days n i last = Outcome.returned (some next) none := by
  induction n with
  | zero => intro i last; exact Or.inr ⟨last, rfl⟩
  | succ n ih =>
    intro i last
    simp only [weekLoop]
    split
    · exact Or.inr ⟨_, rfl⟩
    · exact Or.inl rfl
    · exact ih _ _

theorem monthLoop_outcome (baseDate : Time) (frequency : Int) (months : List (Option String))
    (n : Nat) :
    ∀ (i : Int) (last : Time),
      monthLoop baseDate frequency months n i last = Outcome.panicked ∨
      ∃ next, monthLoop baseDate frequency months n i last =
        Outcome.returned (some next) none := by
  induction n with
  | zero => intro i last; exact Or.inr ⟨last, rfl⟩
  | succ n ih =>
    intro i last
    simp only [monthLoop]
    split
    · exact Or.inr ⟨_, rfl⟩
    · exact Or.inl rfl
    · exact ih _ _

/-- The interval step of the code is the step of the specification when the
64-bit products do not overflow and the calendar step is within the modelled
range. -/
theorem intervalNextDueDate_stepsTo (frequency : Int) (u : String) (base : Time)
    (hu : u ∈ frequencyUnits)
    (hhours : u = "hours" → minDuration ≤ 3600000000000 * frequency ∧
      3600000000000 * frequency ≤ maxDuration)
    (hweeks : u = "weeks" → calendarStep (7 * frequency))
    (hother : u ≠ "hours" → u ≠ "weeks" → calendarStep frequency) :
    ∃ r, intervalNextDueDate frequency (some u) base = Outcome.returned (some r) none ∧
      stepsTo "interval" (some u) frequency base.UTC r := by
  simp only [frequencyUnits, List.mem_cons, List.mem_singleton, List.not_mem_nil, or_false] at hu
  rcases hu with h | h | h | h | h
  · subst h
    rw [show intervalNextDueDate frequency (some "hours") base = Outcome.returned
      (some (base.UTC.Add (wrapInt64 (3600000000000 * frequency)))) none from by
      simp only [intervalNextDueDate, if_true],
      wrapInt64_of_range _ (hhours rfl).1 (hhours rfl).2]
    refine ⟨base.UTC.Add (3600000000000 * frequency), rfl, ?_⟩
    simp only [stepsTo, liesAfter, Time.Add, Time.UTC]
    simp only [if_true, mul_comm, (by decide : ¬ ("interval" = "daily")),
      (by decide : ¬ ("interval" = "weekly")), (by decide : ¬ ("interval" = "monthly")),
      (by decide : ¬ ("interval" = "yearly")), if_false]
  · subst h
    have hc := hother (by decide) (by decide)
    refine ⟨base.UTC.AddDate 0 0 frequency, by simp [intervalNextDueDate, modelled, hc], ?_⟩
    simp only [stepsTo, (by decide : ¬ ("interval" = "daily")),
      (by decide : ¬ ("interval" = "weekly")), (by decide : ¬ ("interval" = "monthly")),
      (by decide : ¬ ("interval" = "yearly")), if_false, if_true,
      (by decide : ¬ (some "days" = some "hours"))]
    exact AddDate_liesAfter base.UTC frequency
  · subst h
    have hc := hweeks rfl
    have h7 : frequency * 7 = 7 * frequency := by ring
    have hw : wrapInt64 (7 * frequency) = 7 * frequency := by
      unfold calendarStep at hc
      exact wrapInt64_of_range _ (by unfold minDuration; omega) (by unfold maxDuration; omega)
    refine ⟨base.UTC.AddDate 0 0 (7 * frequency),
      by simp [intervalNextDueDate, modelled, h7, hw, hc], ?_⟩
    simp only [stepsTo, (by decide : ¬ ("interval" = "daily")),
      (by decide : ¬ ("interval" = "weekly")), (by decide : ¬ ("interval" = "monthly")),
      (by decide : ¬ ("interval" = "yearly")), if_false, if_true,
      (by decide : ¬ (some "weeks" = some "hours")), (by decide : ¬ (some "weeks" = some "days"))]
    have h := AddDate_liesAfter base.UTC (7 * frequency)
    have e : 7 * frequency * 86400000000000 = frequency * (7 * 86400000000000) := by ring
    rw [e] at h
    exact h
  · subst h
    have hc := hother (by decide) (by decide)
    refine ⟨base.UTC.AddDate 0 frequency 0, by simp [intervalNextDueDate, modelled, hc], ?_⟩
    simp only [stepsTo, (by decide : ¬ ("interval" = "daily")),
      (by decide : ¬ ("interval" = "weekly")), (by decide : ¬ ("interval" = "monthly")),
      (by decide : ¬ ("interval" = "yearly")), if_false, if_true,
      (by decide : ¬ (some "months" = some "hours")),
      (by decide : ¬ (some "months" = some "days")),
      (by decide : ¬ (some "months" = some "weeks"))]
    exact AddDate_monthsAfter base.UTC frequency
  · subst h
    have hc := hother (by decide) (by decide)
    refine ⟨base.UTC.AddDate frequency 0 0, by simp [intervalNextDueDate, modelled, hc], ?_⟩
    simp only [stepsTo, (by decide : ¬ ("interval" = "daily")),
      (by decide : ¬ ("interval" = "weekly")), (by decide : ¬ ("interval" = "monthly")),
      (by decide : ¬ ("interval" = "yearly")), if_false, if_true,
      (by decide : ¬ (some "years" = some "hours")),
      (by decide : ¬ (some "years" = some "days")),
      (by decide : ¬ (some "years" = some "weeks")),
      (by decide : ¬ (some "years" = some "months"))]
    exact AddDate_yearsAfter base.UTC frequency

/-- The basic computation of a calendar-step or interval task returns the step of
the specification from the base date in UTC. -/
theorem calculateBasic_stepsTo (chore : Chore) (completedDate base : Time)
    (m : FrequencyMetadata) (hmeta : chore.FrequencyMetadata = Payload.decoded m)
    (htype : chore.FrequencyType = "daily" ∨ chore.FrequencyType = "weekly" ∨
      chore.FrequencyType = "monthly" ∨ chore.FrequencyType = "yearly" ∨
      (chore.FrequencyType = "interval" ∧ ∃ u, m.Unit = some u ∧ u ∈ frequencyUnits))
    (hhours : chore.FrequencyType = "interval" → m.Unit = some "hours" →
      minDuration ≤ 3600000000000 * chore.Frequency ∧
        3600000000000 * chore.Frequency ≤ maxDuration)
    (hweeks : chore.FrequencyType = "interval" → m.Unit = some "weeks" →
      calendarStep (7 * chore.Frequency))
    (hother : chore.FrequencyType = "interval" → m.Unit ≠ some "hours" →
      m.Unit ≠ some "weeks" → calendarStep chore.Frequency)
    (hbase : chore.FrequencyType ≠ "interval" → base.UTC = base) :
    ∃ r, calculateBasicNextDueDate chore completedDate base = Outcome.returned (some r) none ∧
      stepsTo chore.FrequencyType m.Unit chore.Frequency base.UTC r := by
  have hfix : chore.FrequencyType ≠ "interval" → base.transitions = false := by
    intro h
    rw [← hbase h]
    rfl
  rcases htype with h | h | h | h | ⟨h, u, hu, hmem⟩
  · have hb := hbase (by rw [h]; decide)
    have hf := hfix (by rw [h]; decide)
    rw [hb]
    refine ⟨base.AddDate 0 0 1, by simp [calculateBasicNextDueDate, h, modelled, hf], ?_⟩
    simp only [stepsTo, h, if_true]
    exact AddDate_liesAfter base 1
  · have hb := hbase (by rw [h]; decide)
    have hf := hfix (by rw [h]; decide)
    rw [hb]
    refine ⟨base.AddDate 0 0 7, by simp [calculateBasicNextDueDate, h, modelled, hf], ?_⟩
    simp only [stepsTo, h, if_true, (by decide : ¬ ("weekly" = "daily")), if_false]
    exact AddDate_liesAfter base 7
  · have hb := hbase (by rw [h]; decide)
    have hf := hfix (by rw [h]; decide)
    rw [hb]
    refine ⟨base.AddDate 0 1 0, by simp [calculateBasicNextDueDate, h, modelled, hf], ?_⟩
    simp only [stepsTo, h, if_true, (by decide : ¬ ("monthly" = "daily")),
      (by decide : ¬ ("monthly" = "weekly")), if_false]
    exact AddDate_monthsAfter base 1
  · have hb := hbase (by rw [h]; decide)
    have hf := hfix (by rw [h]; decide)
    rw [hb]
    refine ⟨base.AddDate 1 0 0, by simp [calculateBasicNextDueDate, h, modelled, hf], ?_⟩
    simp only [stepsTo, h, if_true, (by decide : ¬ ("yearly" = "daily")),
      (by decide : ¬ ("yearly" = "weekly")), (by decide : ¬ ("yearly" = "monthly")), if_false]
    exact AddDate_yearsAfter base 1
  · obtain ⟨r, hr, hs⟩ := intervalNextDueDate_stepsTo chore.Frequency u base hmem
      (fun hh => hhours h (by rw [hu, hh])) (fun hh => hweeks h (by rw [hu, hh]))
      (fun h1 h2 => hother h (by rw [hu]; exact fun e => h1 (Option.some.inj e))
        (by rw [hu]; exact fun e => h2 (Option.some.inj e)))
    refine ⟨r, ?_, ?_⟩
    · rw [← hr]
      simp [calculateBasicNextDueDate, h, hmeta, hu]
    · rw [h, hu]
      exact hs

/-- The relation `movedToMonth` determines its result. -/
theorem movedToMonth_unique (base : Time) (year month : Int) (r s : Time)
    (hr : movedToMonth base year month r) (hs : movedToMonth base year month s) : r = s := by
  obtain ⟨⟨f1, hf1, e1⟩, _⟩ := hr
  obtain ⟨⟨f2, hf2, e2⟩, _⟩ := hs
  rw [e1, e2, hasFields_unique f1 f2 _ _ _ _ _ _ _ _ hf1 hf2]

theorem liesAfter_unique (base : Time) (d : Int) (r s : Time) (hr : liesAfter base d r)
    (hs : liesAfter base d s) : r = s := by
  unfold liesAfter at hr hs
  rw [hr, hs]

/-- The step of the specification determines its result. -/
theorem stepsTo_unique (frequencyType : String) (unit : Option String) (frequency : Int)
    (base r s : Time) (hr : stepsTo frequencyType unit frequency base r)
    (hs : stepsTo frequencyType unit frequency base s) : r = s := by
  unfold stepsTo at hr hs
  by_cases h1 : frequencyType = "daily"
  · simp only [h1, if_true] at hr hs
    exact liesAfter_unique _ _ _ _ hr hs
  by_cases h2 : frequencyType = "weekly"
  · simp only [h1, h2, if_true, if_false] at hr hs
    exact liesAfter_unique _ _ _ _ hr hs
  by_cases h3 : frequencyType = "monthly"
  · simp only [h1, h2, h3, if_true, if_false] at hr hs
    exact movedToMonth_unique _ _ _ _ _ hr hs
  by_cases h4 : frequencyType = "yearly"
  · simp only [h1, h2, h3, h4, if_true, if_false] at hr hs
    exact movedToMonth_unique _ _ _ _ _ hr hs
  by_cases h5 : frequencyType = "interval"
  · simp only [h1, h2, h3, h4, if_false] at hr hs
    simp only [h5, if_true] at hr hs
    by_cases u1 : unit = some "hours"
    · simp only [u1, if_true] at hr hs
      exact liesAfter_unique _ _ _ _ hr hs
    by_cases u2 : unit = some "days"
    · simp only [u1, u2, if_true, if_false] at hr hs
      exact liesAfter_unique _ _ _ _ hr hs
    by_cases u3 : unit = some "weeks"
    · simp only [u1, u2, u3, if_true, if_false] at hr hs
      exact liesAfter_unique _ _ _ _ hr hs
    by_cases u4 : unit = some "months"
    · simp only [u1, u2, u3, u4, if_true, if_false] at hr hs
      exact movedToMonth_unique _ _ _ _ _ hr hs
    by_cases u5 : unit = some "years"
    · simp only [u1, u2, u3, u4, u5, if_true, if_false] at hr hs
      exact movedToMonth_unique _ _ _ _ _ hr hs
    · simp only [u1, u2, u3, u4, u5, if_false] at hr
  · simp only [h1, h2, h3, h4, h5, if_false] at hr

theorem stepsTo_daily (unit : Option String) (frequency : Int) (base r : Time) :
    stepsTo "daily" unit frequency base r ↔ liesAfter base 86400000000000 r := by
  simp only [stepsTo, if_true]

theorem stepsTo_interval_hours (frequency : Int) (base r : Time) :
    stepsTo "interval" (some "hours") frequency base r ↔
      liesAfter base (frequency * 3600000000000) r := by
  simp only [stepsTo, (by decide : ¬ ("interval" = "daily")),
    (by decide : ¬ ("interval" = "weekly")), (by decide : ¬ ("interval" = "monthly")),
    (by decide : ¬ ("interval" = "yearly")), if_false, if_true]

theorem stepsTo_interval_days (frequency : Int) (base r : Time) :
    stepsTo "interval" (some "days") frequency base r ↔
      liesAfter base (frequency * 86400000000000) r := by
  simp only [stepsTo, (by decide : ¬ ("interval" = "daily")),
    (by decide : ¬ ("interval" = "weekly")), (by decide : ¬ ("interval" = "monthly")),
    (by decide : ¬ ("interval" = "yearly")), if_false, if_true,
    (by decide : ¬ (some "days" = some "hours"))]

/-- The result of a task with well-formed metadata and no active period whose
base date is `base` in UTC: that base date plus the step of the
specification. -/
theorem schedule_stepsTo (chore : Chore) (completedDate stamped base : Time)
    (m : FrequencyMetadata)
    (hmeta : chore.FrequencyMetadata = Payload.decoded m)
    (hst : stampedBaseDate chore m completedDate = some stamped)
    (hzone : chore.IsRolling = true ∨ stampNeedsZoneRules chore m = false)
    (hbase : (if chore.IsRolling then completedDate.UTC else stamped) = base)
    (hperiod : chore.PeriodStart = none ∨ chore.PeriodEnd = none)
    (htype : chore.FrequencyType = "daily" ∨ chore.FrequencyType = "weekly" ∨
      chore.FrequencyType = "monthly" ∨ chore.FrequencyType = "yearly" ∨
      (chore.FrequencyType = "interval" ∧ ∃ u, m.Unit = some u ∧ u ∈ frequencyUnits))
    (hhours : chore.FrequencyType = "interval" → m.Unit = some "hours" →
      minDuration ≤ 3600000000000 * chore.Frequency ∧
        3600000000000 * chore.Frequency ≤ maxDuration)
    (hweeks : chore.FrequencyType = "interval" → m.Unit = some "weeks" →
      calendarStep (7 * chore.Frequency))
    (hother : chore.FrequencyType = "interval" → m.Unit ≠ some "hours" →
      m.Unit ≠ some "weeks" → calendarStep chore.Frequency)
    (hutc : chore.FrequencyType ≠ "interval" → base.UTC = base) :
    ∃ r, scheduleNextDueDate chore completedDate = Outcome.returned (some r) none ∧
      stepsTo chore.FrequencyType m.Unit chore.Frequency base.UTC r := by
  obtain ⟨r, hr, hs⟩ := calculateBasic_stepsTo chore completedDate base m hmeta htype hhours
    hweeks hother hutc
  have honce : chore.FrequencyType ≠ "once" := by
    rcases htype with h | h | h | h | ⟨h, _⟩ <;> rw [h] <;> decide
  refine ⟨r, ?_, hs⟩
  refine schedule_of_basic_date chore completedDate stamped r m hmeta honce hst hzone hperiod ?_
  rw [hbase]
  exact hr

/-- C2: for a non-rolling task with decoded metadata, a present nextDueDate and no
active period, `scheduleNextDueDate` returns, in UTC, the instant 24 hours after
nextDueDate (daily), the instant 168 hours after it (weekly), nextDueDate plus
1 calendar month (monthly: the same day and clock reading in the next month
when the day is at most 28, and in general as many days after the first of the
next month as nextDueDate lies after the first of its own) or plus 1 calendar
year (yearly, likewise in the same month of the next year); none of the four
results depends on the completion timestamp. -/
theorem C2_nonrolling_steps_from_due_date (chore : Chore) (completedDate due : Time)
    (m : FrequencyMetadata) (hroll : chore.IsRolling = false)
    (hmeta : chore.FrequencyMetadata = Payload.decoded m)
    (hdue : chore.NextDueDate = some due)
    (hperiod : chore.PeriodStart = none ∨ chore.PeriodEnd = none) :
    (chore.FrequencyType = "daily" →
      scheduleNextDueDate chore completedDate =
        Outcome.returned (some { ns := due.ns + 86400000000000, offset := 0 }) none) ∧
    (chore.FrequencyType = "weekly" →
      scheduleNextDueDate chore completedDate =
        Outcome.returned (some { ns := due.ns + 604800000000000, offset := 0 }) none) ∧
    (chore.FrequencyType = "monthly" →
      ∃ r, scheduleNextDueDate chore completedDate = Outcome.returned (some r) none ∧
        monthsAfter due.UTC 1 r) ∧
    (chore.FrequencyType = "yearly" →
      ∃ r, scheduleNextDueDate chore completedDate = Outcome.returned (some r) none ∧
        yearsAfter due.UTC 1 r) ∧
    (chore.FrequencyType = "daily" ∨ chore.FrequencyType = "weekly" ∨
        chore.FrequencyType = "monthly" ∨ chore.FrequencyType = "yearly" →
      ∀ otherCompletion : Time,
        scheduleNextDueDate chore otherCompletion = scheduleNextDueDate chore completedDate) := by
  have key : ∀ c : Time, chore.FrequencyType = "daily" ∨ chore.FrequencyType = "weekly" ∨
      chore.FrequencyType = "monthly" ∨ chore.FrequencyType = "yearly" →
      ∃ r, scheduleNextDueDate chore c = Outcome.returned (some r) none ∧
        stepsTo chore.FrequencyType m.Unit chore.Frequency due.UTC r := by
    intro c ht
    have h1 : chore.FrequencyType ≠ "day_of_the_month" := by
      rcases ht with h | h | h | h <;> rw [h] <;> decide
    have h2 : chore.FrequencyType ≠ "days_of_the_week" := by
      rcases ht with h | h | h | h <;> rw [h] <;> decide
    have h3 : chore.FrequencyType ≠ "interval" := by
      rcases ht with h | h | h | h <;> rw [h] <;> decide
    have hst := stampedBaseDate_plain chore m c h1 h2 h3
    rw [initialBaseDate_of_due chore c due hdue] at hst
    have h := schedule_stepsTo chore c due.UTC due.UTC m hmeta hst
      (Or.inr (stampNeedsZoneRules_plain chore m h1 h2 h3)) (by simp [hroll]) hperiod
      (by
        rcases ht with h | h | h | h
        · exact Or.inl h
        · exact Or.inr (Or.inl h)
        · exact Or.inr (Or.inr (Or.inl h))
        · exact Or.inr (Or.inr (Or.inr (Or.inl h))))
      (fun h => absurd h h3) (fun h => absurd h h3) (fun h => absurd h h3) (fun _ => rfl)
    rw [UTC_UTC] at h
    exact h
  refine ⟨?_, ?_, ?_, ?_, ?_⟩
  · intro h
    obtain ⟨r, hr, hs⟩ := key completedDate (Or.inl h)
    simp only [stepsTo, h, if_true, liesAfter] at hs
    rw [hr, hs]
    rfl
  · intro h
    obtain ⟨r, hr, hs⟩ := key completedDate (Or.inr (Or.inl h))
    simp only [stepsTo, h, (by decide : ¬ ("weekly" = "daily")), if_false, if_true,
      liesAfter] at hs
    rw [hr, hs]
    rfl
  · intro h
    obtain ⟨r, hr, hs⟩ := key completedDate (Or.inr (Or.inr (Or.inl h)))
    simp only [stepsTo, h, (by decide : ¬ ("monthly" = "daily")),
      (by decide : ¬ ("monthly" = "weekly")), if_false, if_true] at hs
    exact ⟨r, hr, hs⟩
  · intro h
    obtain ⟨r, hr, hs⟩ := key completedDate (Or.inr (Or.inr (Or.inr h)))
    simp only [stepsTo, h, (by decide : ¬ ("yearly" = "daily")),
      (by decide : ¬ ("yearly" = "weekly")), (by decide : ¬ ("yearly" = "monthly")),
      if_false, if_true] at hs
    exact ⟨r, hr, hs⟩
  · intro ht c
    obtain ⟨r, hr, hs⟩ := key completedDate ht
    obtain ⟨r2, hr2, hs2⟩ := key c ht
    rw [hr, hr2, stepsTo_unique _ _ _ _ _ _ hs2 hs]

/-- C2 at the example of the specification: nextDueDate 2024-01-01T08:00Z,
completed 2024-01-01T09:00Z, daily, gives 2024-01-02T08:00Z. -/
theorem C2_nonrolling_steps_from_due_date_witness :
    scheduleNextDueDate
        (sampleChore "daily" 1 (Payload.decoded (sampleMeta [] [] none none)) false
          (some (utc 2024 1 1 8 0)))
        (utc 2024 1 1 9 0) = Outcome.returned (some (utc 2024 1 2 8 0)) none := by
  have h := (C2_nonrolling_steps_from_due_date
    (sampleChore "daily" 1 (Payload.decoded (sampleMeta [] [] none none)) false
      (some (utc 2024 1 1 8 0)))
    (utc 2024 1 1 9 0) (utc 2024 1 1 8 0) (sampleMeta [] [] none none) rfl rfl rfl
    (Or.inl rfl)).1 rfl
  rw [h]
  decide

/-- C3 (as stated, refuted): a rolling interval task of 2562048 hours completed at
2024-01-05T10:00Z is not scheduled 2562048 hours after the completion: the
64-bit product of one hour and the frequency wraps to a negative duration and
the returned date lies before the completion. -/
theorem C3_counterexample :
    scheduleNextDueDate
        (sampleChore "interval" 2562048
          (Payload.decoded (sampleMeta [] [] (some "hours") (some (utc 2024 1 1 8 0)))) true none)
        (utc 2024 1 5 10 0) =
      Outcome.returned
        (some ((utc 2024 1 5 10 0).Add (3600000000000 * 2562048 - 18446744073709551616))) none ∧
    ¬ stepsTo "interval" (some "hours") 2562048 (utc 2024 1 5 10 0).UTC
        ((utc 2024 1 5 10 0).Add (3600000000000 * 2562048 - 18446744073709551616)) ∧
    ((utc 2024 1 5 10 0).Add (3600000000000 * 2562048 - 18446744073709551616)).Before
      (utc 2024 1 5 10 0) := by
  refine ⟨by decide, ?_, by decide⟩
  rw [stepsTo_interval_hours]
  unfold liesAfter
  decide

/-- C3 (amended): for every rolling task with well-formed metadata, no active period
and frequencyType daily, weekly, monthly, yearly or interval, provided that for
the interval unit hours the product of one hour and the frequency fits a 64-bit
duration, for the unit weeks 7 times the frequency is at most 1000000 in
absolute value, and for the units days, months and years the frequency is,
`scheduleNextDueDate` returns the completion timestamp in UTC plus the step of
the type: 24 hours, 168 hours, 1 calendar month, 1 calendar year, or frequency
hours of 3600 seconds, days of 24 hours, weeks of 7 days, calendar months or
calendar years.  The result is the same whatever nextDueDate is (any value or
absent) and whatever the metadata time of day is. -/
theorem C3_rolling_steps_from_completion (chore : Chore) (completedDate : Time)
    (m : FrequencyMetadata) (hroll : chore.IsRolling = true)
    (hmeta : chore.FrequencyMetadata = Payload.decoded m)
    (hperiod : chore.PeriodStart = none ∨ chore.PeriodEnd = none)
    (htype : chore.FrequencyType = "daily" ∨ chore.FrequencyType = "weekly" ∨
      chore.FrequencyType = "monthly" ∨ chore.FrequencyType = "yearly" ∨
      (chore.FrequencyType = "interval" ∧ ∃ u, m.Unit = some u ∧ u ∈ frequencyUnits))
    (htime : chore.FrequencyType = "interval" → ∃ t, m.Time = some t)
    (hhours : chore.FrequencyType = "interval" → m.Unit = some "hours" →
      minDuration ≤ 3600000000000 * chore.Frequency ∧
        3600000000000 * chore.Frequency ≤ maxDuration)
    (hweeks : chore.FrequencyType = "interval" → m.Unit = some "weeks" →
      calendarStep (7 * chore.Frequency))
    (hother : chore.FrequencyType = "interval" → m.Unit ≠ some "hours" →
      m.Unit ≠ some "weeks" → calendarStep chore.Frequency) :
    ∃ r, scheduleNextDueDate chore completedDate = Outcome.returned (some r) none ∧
      stepsTo chore.FrequencyType m.Unit chore.Frequency completedDate.UTC r ∧
      ∀ (due : Option Time) (t : Time),
        scheduleNextDueDate
            { chore with
              NextDueDate := due
              FrequencyMetadata := Payload.decoded { m with Time := some t } }
            completedDate =
          Outcome.returned (some r) none := by
  have key : ∀ (c : Chore) (m2 : FrequencyMetadata), c.IsRolling = true →
      c.FrequencyMetadata = Payload.decoded m2 →
      (c.PeriodStart = none ∨ c.PeriodEnd = none) →
      c.FrequencyType = chore.FrequencyType → c.Frequency = chore.Frequency →
      m2.Unit = m.Unit → (c.FrequencyType = "interval" → ∃ t, m2.Time = some t) →
      ∃ r, scheduleNextDueDate c completedDate = Outcome.returned (some r) none ∧
        stepsTo chore.FrequencyType m.Unit chore.Frequency completedDate.UTC r := by
    intro c m2 hr2 hm2 hp2 hty hfr hun hti
    have hst : ∃ stamped, stampedBaseDate c m2 completedDate = some stamped := by
      by_cases hi : c.FrequencyType = "interval"
      · obtain ⟨t, ht⟩ := hti hi
        exact ⟨_, stampedBaseDate_timed c m2 completedDate t (Or.inr (Or.inr hi)) ht⟩
      · have h1 : c.FrequencyType ≠ "day_of_the_month" := by
          rw [hty]
          rcases htype with h | h | h | h | ⟨h, _⟩ <;> rw [h] <;> decide
        have h2 : c.FrequencyType ≠ "days_of_the_week" := by
          rw [hty]
          rcases htype with h | h | h | h | ⟨h, _⟩ <;> rw [h] <;> decide
        exact ⟨_, stampedBaseDate_plain c m2 completedDate h1 h2 hi⟩
    obtain ⟨stamped, hst⟩ := hst
    have h := schedule_stepsTo c completedDate stamped completedDate.UTC m2 hm2 hst
      (Or.inl hr2) (by simp [hr2]) hp2 (by rw [hty, hun]; exact htype)
      (by rw [hty, hun, hfr]; exact hhours) (by rw [hty, hun, hfr]; exact hweeks)
      (by rw [hty, hun, hfr]; exact hother) (fun _ => rfl)
    rw [UTC_UTC, hty, hun, hfr] at h
    exact h
  obtain ⟨r, hr, hs⟩ := key chore m hroll hmeta hperiod rfl rfl rfl htime
  refine ⟨r, hr, hs, ?_⟩
  intro due t
  obtain ⟨r2, hr2, hs2⟩ := key
    { chore with
      NextDueDate := due
      FrequencyMetadata := Payload.decoded { m with Time := some t } }
    { m with Time := some t } hroll rfl hperiod rfl rfl rfl (fun _ => ⟨t, rfl⟩)
  rw [hr2, stepsTo_unique _ _ _ _ _ _ hs2 hs]

/-- C3 at the example of the specification: a rolling daily task completed at
2024-01-05T10:00Z is next due at 2024-01-06T10:00Z, whatever its previous due
date; and a rolling interval task of 3 hours with the metadata time 08:00Z
completed at 2024-01-05T10:00Z is next due at 2024-01-05T13:00Z. -/
theorem C3_rolling_steps_from_completion_witness :
    scheduleNextDueDate
        (sampleChore "daily" 1 (Payload.decoded (sampleMeta [] [] none none)) true
          (some (utc 2023 12 25 8 0)))
        (utc 2024 1 5 10 0) = Outcome.returned (some (utc 2024 1 6 10 0)) none ∧
    scheduleNextDueDate
        (sampleChore "interval" 3
          (Payload.decoded (sampleMeta [] [] (some "hours") (some (utc 2024 1 1 8 0)))) true
          (some (utc 2023 12 25 8 0)))
        (utc 2024 1 5 10 0) = Outcome.returned (some (utc 2024 1 5 13 0)) none := by
  obtain ⟨r, hr, hs, _⟩ := C3_rolling_steps_from_completion
    (sampleChore "daily" 1 (Payload.decoded (sampleMeta [] [] none none)) true
      (some (utc 2023 12 25 8 0)))
    (utc 2024 1 5 10 0) (sampleMeta [] [] none none) rfl rfl (Or.inl rfl) (Or.inl rfl)
    (fun h => absurd h (by decide)) (fun h => absurd h (by decide))
    (fun h => absurd h (by decide)) (fun h => absurd h (by decide))
  obtain ⟨r3, hr3, hs3, _⟩ := C3_rolling_steps_from_completion
    (sampleChore "interval" 3
      (Payload.decoded (sampleMeta [] [] (some "hours") (some (utc 2024 1 1 8 0)))) true
      (some (utc 2023 12 25 8 0)))
    (utc 2024 1 5 10 0) (sampleMeta [] [] (some "hours") (some (utc 2024 1 1 8 0))) rfl rfl
    (Or.inl rfl)
    (Or.inr (Or.inr (Or.inr (Or.inr ⟨rfl, "hours", rfl, by decide⟩))))
    (fun _ => ⟨utc 2024 1 1 8 0, rfl⟩) (fun _ _ => by decide)
    (fun _ h => absurd h (by decide)) (fun _ h _ => absurd rfl h)
  have e : r = utc 2024 1 6 10 0 :=
    stepsTo_unique "daily" none 1 _ _ _ hs
      ((stepsTo_daily _ _ _ _).mpr (by unfold liesAfter; decide))
  have e3 : r3 = utc 2024 1 5 13 0 :=
    stepsTo_unique "interval" (some "hours") 3 _ _ _ hs3
      ((stepsTo_interval_hours _ _ _).mpr (by unfold liesAfter; decide))
  rw [hr, hr3, e, e3]
  exact ⟨rfl, rfl⟩

/-- C4 (as stated, refuted): with the metadata time 01:00+05:00 and nextDueDate
2024-03-01T00:00Z, an interval task of 1 day is scheduled at 2024-03-01T20:00Z:
the hour and minute are stamped in the zone of the metadata time, which is
2024-02-29T20:00Z, and not on the UTC date, which would give 2024-03-02T01:00Z.
And with the metadata time 00:00Z an interval task of 2562048 hours is not
scheduled 2562048 hours after its base date, because the 64-bit product
wraps. -/
theorem C4_counterexample :
    (scheduleNextDueDate
        (sampleChore "interval" 1
          (Payload.decoded (sampleMeta [] [] (some "days") (some (Date 2024 1 1 1 0 0 0 18000))))
          false (some (utc 2024 3 1 0 0)))
        (utc 2024 3 1 9 0) = Outcome.returned (some (utc 2024 3 1 20 0)) none ∧
      stepsTo "interval" (some "days") 1
        (specStampedBase (utc 2024 3 1 0 0).UTC (Date 2024 1 1 1 0 0 0 18000))
        (utc 2024 3 2 1 0) ∧
      ¬ stepsTo "interval" (some "days") 1
        (specStampedBase (utc 2024 3 1 0 0).UTC (Date 2024 1 1 1 0 0 0 18000))
        (utc 2024 3 1 20 0)) ∧
    (scheduleNextDueDate
        (sampleChore "interval" 2562048
          (Payload.decoded (sampleMeta [] [] (some "hours") (some (utc 2024 1 1 0 0))))
          false (some (utc 2024 3 1 0 0)))
        (utc 2024 3 1 9 0) =
      Outcome.returned
        (some ((utc 2024 3 1 0 0).Add (3600000000000 * 2562048 - 18446744073709551616))) none ∧
      ¬ stepsTo "interval" (some "hours") 2562048
        (specStampedBase (utc 2024 3 1 0 0).UTC (utc 2024 1 1 0 0))
        ((utc 2024 3 1 0 0).Add (3600000000000 * 2562048 - 18446744073709551616))) := by
  refine ⟨⟨by decide, ?_, ?_⟩, by decide, ?_⟩
  · rw [stepsTo_interval_days]
    unfold liesAfter
    decide
  · rw [stepsTo_interval_days]
    unfold liesAfter
    decide
  · rw [stepsTo_interval_hours]
    unfold liesAfter
    decide

/-- C4 (amended): for every non-rolling interval task with no active period, a
metadata time that parses into a location without transitions (UTC or a fixed
offset) and a unit among hours, days, weeks, months, years, provided that for
hours the product of one hour and the frequency fits a 64-bit duration, for
weeks 7 times the frequency is at most 1000000 in absolute value, and for days,
months and years the frequency is, `scheduleNextDueDate` returns the stamped
base date, converted to UTC, plus frequency units of the unit (hours of 3600
seconds, days of 24 hours, weeks of 7 days, calendar months, calendar years).
The stamped base date shows, at the offset of the metadata time, the calendar
date of the base date (nextDueDate if present, else completedAt, in UTC), the
hour and minute of the metadata time, and zero seconds; when the metadata time
is in UTC it is the base date with its hour and minute replaced. -/
theorem C4_interval_from_stamped_base (chore : Chore) (completedDate t : Time)
    (m : FrequencyMetadata) (u : String) (hroll : chore.IsRolling = false)
    (hmeta : chore.FrequencyMetadata = Payload.decoded m)
    (hperiod : chore.PeriodStart = none ∨ chore.PeriodEnd = none)
    (htype : chore.FrequencyType = "interval")
    (htime : m.Time = some t) (hfix : t.transitions = false)
    (hunit : m.Unit = some u) (hu : u ∈ frequencyUnits)
    (hhours : u = "hours" →
      minDuration ≤ 3600000000000 * chore.Frequency ∧
        3600000000000 * chore.Frequency ≤ maxDuration)
    (hweeks : u = "weeks" → calendarStep (7 * chore.Frequency))
    (hother : u ≠ "hours" → u ≠ "weeks" → calendarStep chore.Frequency) :
    ∃ stamped r : Time,
      hasFields stamped (initialBaseDate chore completedDate).Year
        (initialBaseDate chore completedDate).Month (initialBaseDate chore completedDate).Day
        t.Hour t.Minute 0 0 t.offset ∧
      scheduleNextDueDate chore completedDate = Outcome.returned (some r) none ∧
      stepsTo "interval" (some u) chore.Frequency stamped.UTC r ∧
      (t.offset = 0 → stamped.UTC = stamped) ∧
      (∀ due, chore.NextDueDate = some due → initialBaseDate chore completedDate = due.UTC) ∧
      (chore.NextDueDate = none → initialBaseDate chore completedDate = completedDate.UTC) := by
  have hst := stampedBaseDate_timed chore m completedDate t (Or.inr (Or.inr htype)) htime
  have hf := Date_stamp_fields (initialBaseDate chore completedDate) t
  obtain ⟨stamped, hstamped⟩ : ∃ s, s = Date (initialBaseDate chore completedDate).Year
    (initialBaseDate chore completedDate).Month (initialBaseDate chore completedDate).Day
    t.Hour t.Minute 0 0 t.offset := ⟨_, rfl⟩
  rw [← hstamped] at hst hf
  obtain ⟨r, hr, hs⟩ := schedule_stepsTo chore completedDate stamped stamped m hmeta hst
    (Or.inr (stampNeedsZoneRules_fixed chore m t htime hfix)) (by simp [hroll]) hperiod
    (Or.inr (Or.inr (Or.inr (Or.inr ⟨htype, u, hunit, hu⟩))))
    (fun _ h => hhours (by rw [hunit] at h; exact Option.some.inj h))
    (fun _ h => hweeks (by rw [hunit] at h; exact Option.some.inj h))
    (fun _ h1 h2 => hother (fun e => h1 (by rw [hunit, e])) (fun e => h2 (by rw [hunit, e])))
    (fun h => absurd htype h)
  rw [htype, hunit] at hs
  refine ⟨stamped, r, ⟨congrArg civilYear hf.1, congrArg civilMonth hf.1, congrArg civilDay hf.1,
    hf.2.1, hf.2.2.1, hf.2.2.2.1, hf.2.2.2.2, by rw [hstamped]; rfl, by rw [hstamped]; rfl⟩,
    hr, hs, ?_, ?_, ?_⟩
  · intro h0
    rw [hstamped]
    simp only [Time.UTC, Date, h0]
  · intro due hdue
    exact initialBaseDate_of_due chore completedDate due hdue
  · intro hnone
    unfold initialBaseDate
    rw [hnone]

/-- C4 at the example of the specification: unit hours, frequency 3, base date
2024-03-01T00:00Z and metadata time 00:00Z give 2024-03-01T03:00Z. -/
theorem C4_interval_from_stamped_base_witness :
    scheduleNextDueDate
        (sampleChore "interval" 3
          (Payload.decoded (sampleMeta [] [] (some "hours") (some (utc 2024 1 1 0 0))))
          false (some (utc 2024 3 1 0 0)))
        (utc 2024 3 1 9 0) = Outcome.returned (some (utc 2024 3 1 3 0)) none := by
  obtain ⟨stamped, r, hf, hr, hs, _⟩ := C4_interval_from_stamped_base
    (sampleChore "interval" 3
      (Payload.decoded (sampleMeta [] [] (some "hours") (some (utc 2024 1 1 0 0))))
      false (some (utc 2024 3 1 0 0)))
    (utc 2024 3 1 9 0) (utc 2024 1 1 0 0)
    (sampleMeta [] [] (some "hours") (some (utc 2024 1 1 0 0))) "hours" rfl rfl (Or.inl rfl) rfl
    rfl rfl rfl (by decide) (fun _ => by decide) (fun h => absurd h (by decide))
    (fun h _ => absurd rfl h)
  have e : stamped = utc 2024 3 1 0 0 :=
    hasFields_unique _ _ _ _ _ _ _ _ _ _ hf (by unfold hasFields; decide)
  rw [e] at hs
  have e2 : r = utc 2024 3 1 3 0 :=
    stepsTo_unique "interval" (some "hours") 3 _ _ _ hs
      ((stepsTo_interval_hours _ _ _).mpr (by unfold liesAfter; decide))
  rw [hr, e2]

theorem intervalNextDueDate_error_iff (frequency : Int) (u : String) (base : Time) :
    ((intervalNextDueDate frequency (some u) base).isError ↔ u ∉ frequencyUnits) ∧
    (u ∉ frequencyUnits → intervalNextDueDate frequency (some u) base =
      Outcome.returned none (some "invalid frequency unit, cannot calculate next due date")) := by
  by_cases h1 : u = "hours"
  · simp [intervalNextDueDate, h1, Outcome.isError, frequencyUnits]
  by_cases h2 : u = "days"
  · by_cases hc : calendarStep frequency <;>
      simp [intervalNextDueDate, h2, Outcome.isError, frequencyUnits, modelled, hc]
  by_cases h3 : u = "weeks"
  · by_cases hc : calendarStep (wrapInt64 (frequency * 7)) <;>
      simp [intervalNextDueDate, h3, Outcome.isError, frequencyUnits, modelled, hc]
  by_cases h4 : u = "months"
  · by_cases hc : calendarStep frequency <;>
      simp [intervalNextDueDate, h4, Outcome.isError, frequencyUnits, modelled, hc]
  by_cases h5 : u = "years"
  · by_cases hc : calendarStep frequency <;>
      simp [intervalNextDueDate, h5, Outcome.isError, frequencyUnits, modelled, hc]
  simp [intervalNextDueDate, h1, h2, h3, h4, h5, Outcome.isError, frequencyUnits]

/-- When the basic computation returns an error, and with which message. -/
theorem calculateBasic_error_iff (chore : Chore) (completedDate base : Time)
    (m : FrequencyMetadata) (hmeta : chore.FrequencyMetadata = Payload.decoded m)
    (honce : chore.FrequencyType ≠ "once")
    (hunit : chore.FrequencyType = "interval" → m.Unit ≠ none) :
    ((calculateBasicNextDueDate chore completedDate base).isError ↔
      (chore.FrequencyType ∉ frequencyTypes ∨
        (chore.FrequencyType = "interval" ∧ ∀ u ∈ frequencyUnits, m.Unit ≠ some u))) ∧
    (chore.FrequencyType ∉ frequencyTypes →
      calculateBasicNextDueDate chore completedDate base =
        Outcome.returned none (some "invalid frequency type, cannot calculate next due date")) ∧
    (chore.FrequencyType = "interval" → (∀ u ∈ frequencyUnits, m.Unit ≠ some u) →
      calculateBasicNextDueDate chore completedDate base =
        Outcome.returned none (some "invalid frequency unit, cannot calculate next due date")) := by
  by_cases h1 : chore.FrequencyType = "daily"
  · cases hb : base.transitions <;>
      simp [calculateBasicNextDueDate, h1, Outcome.isError, frequencyTypes, modelled, hb]
  by_cases h2 : chore.FrequencyType = "weekly"
  · cases hb : base.transitions <;>
      simp [calculateBasicNextDueDate, h2, Outcome.isError, frequencyTypes, modelled, hb]
  by_cases h3 : chore.FrequencyType = "monthly"
  · cases hb : base.transitions <;>
      simp [calculateBasicNextDueDate, h3, Outcome.isError, frequencyTypes, modelled, hb]
  by_cases h4 : chore.FrequencyType = "yearly"
  · cases hb : base.transitions <;>
      simp [calculateBasicNextDueDate, h4, Outcome.isError, frequencyTypes, modelled, hb]
  by_cases h5 : chore.FrequencyType = "adaptive"
  · cases hd : chore.NextDueDate <;>
      simp [calculateBasicNextDueDate, h5, hd, Outcome.isError, frequencyTypes]
  by_cases h6 : chore.FrequencyType = "interval"
  · obtain ⟨u, hu⟩ := Option.ne_none_iff_exists'.mp (hunit h6)
    have hi := intervalNextDueDate_error_iff chore.Frequency u base
    have hcalc : calculateBasicNextDueDate chore completedDate base =
        intervalNextDueDate chore.Frequency (some u) base := by
      simp [calculateBasicNextDueDate, h6, hmeta, hu]
    have hall : (∀ v ∈ frequencyUnits, m.Unit ≠ some v) ↔ u ∉ frequencyUnits := by
      rw [hu]
      constructor
      · intro h hmem
        exact h u hmem rfl
      · intro h v hv hev
        exact h (by rw [Option.some.inj hev]; exact hv)
    rw [hcalc, hall]
    refine ⟨?_, ?_, ?_⟩
    · rw [hi.1]
      simp [h6, frequencyTypes]
    · intro hn
      exact absurd (by simp [h6, frequencyTypes]) hn
    · intro _ hn
      exact hi.2 hn
  by_cases h7 : chore.FrequencyType = "days_of_the_week"
  · have hcalc : calculateBasicNextDueDate chore completedDate base =
        if base.transitions = false then weekLoop base m.Days 7 1 zeroTime
        else Outcome.unmodelled := by
      simp [calculateBasicNextDueDate, h7, hmeta]
    rw [hcalc]
    cases hb : base.transitions
    · rcases weekLoop_outcome base m.Days 7 1 zeroTime with h | ⟨d, h⟩ <;>
        simp [h, h7, Outcome.isError, frequencyTypes]
    · simp [h7, Outcome.isError, frequencyTypes]
  by_cases h8 : chore.FrequencyType = "day_of_the_month"
  · have hcalc : calculateBasicNextDueDate chore completedDate base =
        if base.transitions = false ∧ calendarStep chore.Frequency then
          monthLoop base chore.Frequency m.Months 12 1 zeroTime
        else Outcome.unmodelled := by
      simp [calculateBasicNextDueDate, h8, hmeta]
    rw [hcalc]
    by_cases hb : base.transitions = false ∧ calendarStep chore.Frequency
    · rcases monthLoop_outcome base chore.Frequency m.Months 12 1 zeroTime with h | ⟨d, h⟩ <;>
        simp [h, hb, h8, Outcome.isError, frequencyTypes]
    · simp [hb, h8, Outcome.isError, frequencyTypes]
  by_cases h9 : chore.FrequencyType = "no_repeat"
  · simp [calculateBasicNextDueDate, h9, Outcome.isError, frequencyTypes]
  by_cases h10 : chore.FrequencyType = "trigger"
  · simp [calculateBasicNextDueDate, h10, Outcome.isError, frequencyTypes]
  simp [calculateBasicNextDueDate, h1, h2, h3, h4, h5, h6, h7, h8, h9, h10, honce,
    Outcome.isError, frequencyTypes]

/-- C5: for every task whose metadata payload decodes and carries a valid time and,
for interval, a unit, `scheduleNextDueDate` returns an error if and only if
frequencyType is outside the closed set of recurrence types (the invalid
frequency type error) or frequencyType is interval and the unit is not one of
hours, days, weeks, months, years (the invalid frequency unit error); whenever
it returns an error it returns no date. -/
theorem C5_error_iff_invalid_type_or_unit (chore : Chore) (completedDate t : Time)
    (m : FrequencyMetadata) (hmeta : chore.FrequencyMetadata = Payload.decoded m)
    (htime : m.Time = some t)
    (hunit : chore.FrequencyType = "interval" → m.Unit ≠ none) :
    ((scheduleNextDueDate chore completedDate).isError ↔
      (chore.FrequencyType ∉ frequencyTypes ∨
        (chore.FrequencyType = "interval" ∧ ∀ u ∈ frequencyUnits, m.Unit ≠ some u))) ∧
    (chore.FrequencyType ∉ frequencyTypes →
      scheduleNextDueDate chore completedDate =
        Outcome.returned none (some "invalid frequency type, cannot calculate next due date")) ∧
    (chore.FrequencyType = "interval" → (∀ u ∈ frequencyUnits, m.Unit ≠ some u) →
      scheduleNextDueDate chore completedDate =
        Outcome.returned none (some "invalid frequency unit, cannot calculate next due date")) ∧
    (∀ date err, scheduleNextDueDate chore completedDate = Outcome.returned date (some err) →
      date = none) := by
  by_cases honce : chore.FrequencyType = "once"
  · have hs : scheduleNextDueDate chore completedDate = Outcome.returned none none := by
      unfold scheduleNextDueDate
      simp only [hmeta, honce, if_true]
    rw [hs]
    simp [honce, Outcome.isError, frequencyTypes]
  · have hst : ∃ stamped, stampedBaseDate chore m completedDate = some stamped := by
      by_cases h3 : chore.FrequencyType = "day_of_the_month" ∨
          chore.FrequencyType = "days_of_the_week" ∨ chore.FrequencyType = "interval"
      · exact ⟨_, stampedBaseDate_timed chore m completedDate t h3 htime⟩
      · simp only [not_or] at h3
        exact ⟨_, stampedBaseDate_plain chore m completedDate h3.1 h3.2.1 h3.2.2⟩
    obtain ⟨stamped, hst⟩ := hst
    obtain ⟨o, ho, hoe, hos⟩ := schedule_of_stamped_error chore completedDate stamped m hmeta
      honce hst
    rw [ho]
    have hc := calculateBasic_error_iff chore completedDate
      (if chore.IsRolling then completedDate.UTC else stamped) m hmeta honce hunit
    have hf := finishSchedule_error chore o
    refine ⟨(hf.1.trans hoe).trans hc.1, ?_, ?_, hf.2.2⟩
    · intro h
      exact hf.2.1 none _ (hos none _ (hc.2.1 h))
    · intro h hu
      exact hf.2.1 none _ (hos none _ (hc.2.2 h hu))

/-- C5 on an interval task with the unrecognised unit fortnights: the call returns the
invalid frequency unit error and no date. -/
theorem C5_error_iff_invalid_type_or_unit_witness :
    scheduleNextDueDate
        (sampleChore "interval" 2
          (Payload.decoded (sampleMeta [] [] (some "fortnights") (some (utc 2024 1 1 8 0))))
          false (some (utc 2024 3 1 0 0)))
        (utc 2024 3 1 9 0) =
      Outcome.returned none (some "invalid frequency unit, cannot calculate next due date") :=
  (C5_error_iff_invalid_type_or_unit
    (sampleChore "interval" 2
      (Payload.decoded (sampleMeta [] [] (some "fortnights") (some (utc 2024 1 1 8 0))))
      false (some (utc 2024 3 1 0 0)))
    (utc 2024 3 1 9 0) (utc 2024 1 1 8 0)
    (sampleMeta [] [] (some "fortnights") (some (utc 2024 1 1 8 0))) rfl rfl
    (fun _ => by decide)).2.2.1 rfl (by decide)

/-- C6 (the code against the claim): for the three types that carry a time of day,
a missing metadata payload (nil pointer) makes `scheduleNextDueDate` panic
instead of returning a metadata error; a payload that does not decode and a
time that is not a valid timestamp do give a metadata error without a date,
rolling or not. -/
theorem C6_missing_metadata_panics (chore : Chore) (completedDate : Time)
    (htype : chore.FrequencyType = "interval" ∨ chore.FrequencyType = "days_of_the_week" ∨
      chore.FrequencyType = "day_of_the_month") :
    (chore.FrequencyMetadata = Payload.absent →
      scheduleNextDueDate chore completedDate = Outcome.panicked) ∧
    (chore.FrequencyMetadata = Payload.malformed →
      scheduleNextDueDate chore completedDate =
        Outcome.returned none (some "error unmarshalling frequency metadata")) ∧
    (∀ m, chore.FrequencyMetadata = Payload.decoded m → m.Time = none →
      scheduleNextDueDate chore completedDate =
        Outcome.returned none (some "error parsing time in frequency metadata")) := by
  refine ⟨?_, ?_, ?_⟩
  · intro h
    unfold scheduleNextDueDate
    rw [h]
  · intro h
    unfold scheduleNextDueDate
    rw [h]
  · intro m h ht
    have honce : chore.FrequencyType ≠ "once" := by
      rcases htype with h | h | h <;> rw [h] <;> decide
    have h3 : chore.FrequencyType = "day_of_the_month" ∨
        chore.FrequencyType = "days_of_the_week" ∨ chore.FrequencyType = "interval" := by
      rcases htype with h | h | h
      · exact Or.inr (Or.inr h)
      · exact Or.inr (Or.inl h)
      · exact Or.inl h
    unfold scheduleNextDueDate
    simp only [h, honce, if_false, stampedBaseDate, h3, if_true, ht]

/-- C6 at the failing input: an interval task whose metadata pointer is nil. -/
theorem C6_missing_metadata_panics_witness :
    scheduleNextDueDate (sampleChore "interval" 1 Payload.absent false (some (utc 2024 3 1 0 0)))
      (utc 2024 3 1 9 0) = Outcome.panicked :=
  (C6_missing_metadata_panics
    (sampleChore "interval" 1 Payload.absent false (some (utc 2024 3 1 0 0)))
    (utc 2024 3 1 9 0) (Or.inl rfl)).1 rfl

/-- C8 (the code against the claim): for the base date 2024-01-31T08:00Z, the day
of the month 15 and the months list february, the twelve iterations visit the
months March, March, May, May, July, July, August, October, October, December,
December and January, because adding months to the 31st overflows into the
following month before the day is rewritten; February is never visited and
the call returns the date of the last iteration, 2025-01-15T08:00Z, in place
of 2024-02-15T08:00Z. -/
theorem C8_month_scan_skips_february :
    calculateBasicNextDueDate
        (sampleChore "day_of_the_month" 15
          (Payload.decoded (sampleMeta [] ["february"] none none)) false none)
        (utc 2024 1 31 9 0) (utc 2024 1 31 8 0) =
      Outcome.returned (some (utc 2025 1 15 8 0)) none ∧
    (List.map (fun i => (monthCandidate (utc 2024 1 31 8 0) 15 i).Month)
        [1, 2, 3, 4, 5, 6, 7, 8, 9, 10, 11, 12]) =
      [3, 3, 5, 5, 7, 7, 8, 10, 10, 12, 12, 1] ∧
    (utc 2025 1 15 8 0).Month = 1 ∧
    calculateBasicNextDueDate
        (sampleChore "day_of_the_month" 15
          (Payload.decoded (sampleMeta [] ["february"] none none)) false none)
        (utc 2024 1 31 9 0) (utc 2024 1 28 8 0) =
      Outcome.returned (some (utc 2024 2 15 8 0)) none := by
  decide

/-- C9 (the code against the claim): the month names of the metadata are compared
as they are written, so for the base date 2024-01-10T08:00Z and the day of the
month 15 the list march gives 2024-03-15T08:00Z while the list March matches
no month and gives the date of the last iteration, 2025-01-15T08:00Z; the day
names of a days_of_the_week task are lowered before the comparison and
Wednesday and wednesday give the same date. -/
theorem C9_month_names_compared_verbatim :
    calculateBasicNextDueDate
        (sampleChore "day_of_the_month" 15
          (Payload.decoded (sampleMeta [] ["march"] none none)) false none)
        (utc 2024 1 10 9 0) (utc 2024 1 10 8 0) =
      Outcome.returned (some (utc 2024 3 15 8 0)) none ∧
    calculateBasicNextDueDate
        (sampleChore "day_of_the_month" 15
          (Payload.decoded (sampleMeta [] ["March"] none none)) false none)
        (utc 2024 1 10 9 0) (utc 2024 1 10 8 0) =
      Outcome.returned (some (utc 2025 1 15 8 0)) none ∧
    calculateBasicNextDueDate
        (sampleChore "days_of_the_week" 1
          (Payload.decoded (sampleMeta ["Wednesday"] [] none none)) false none)
        (utc 2024 1 10 9 0) (utc 2024 1 10 8 0) =
      calculateBasicNextDueDate
        (sampleChore "days_of_the_week" 1
          (Payload.decoded (sampleMeta ["wednesday"] [] none none)) false none)
        (utc 2024 1 10 9 0) (utc 2024 1 10 8 0) := by
  decide

/-- C10 (as stated, refuted): an adaptive task due at 1700-01-01T00:00Z and completed
at 2024-01-01T00:00Z, 324 years later, is not scheduled 324 years after the
completion: the difference of the two instants saturates at the largest
duration, about 292 years. -/
theorem C10_counterexample :
    scheduleNextDueDate
        (sampleChore "adaptive" 1 (Payload.decoded (sampleMeta [] [] none none)) false
          (some (utc 1700 1 1 0 0)))
        (utc 2024 1 1 0 0) =
      Outcome.returned (some ((utc 2024 1 1 0 0).Add maxDuration)) none ∧
    scheduleNextDueDate
        (sampleChore "adaptive" 1 (Payload.decoded (sampleMeta [] [] none none)) false
          (some (utc 1700 1 1 0 0)))
        (utc 2024 1 1 0 0) ≠
      Outcome.returned
        (some ((utc 2024 1 1 0 0).Add ((utc 2024 1 1 0 0).ns - (utc 1700 1 1 0 0).ns))) none := by
  decide

/-- C10 (amended): for every adaptive task with nextDueDate present, decoded metadata
and no active period, rolling or not, provided the distance between the
completion and nextDueDate fits a 64-bit duration (about 292 years),
`scheduleNextDueDate` returns the instant completedAt + (completedAt −
nextDueDate), in UTC. -/
theorem C10_adaptive_mirrors_delay (chore : Chore) (completedDate due : Time)
    (m : FrequencyMetadata) (htype : chore.FrequencyType = "adaptive")
    (hmeta : chore.FrequencyMetadata = Payload.decoded m)
    (hdue : chore.NextDueDate = some due)
    (hperiod : chore.PeriodStart = none ∨ chore.PeriodEnd = none)
    (hlo : minDuration ≤ completedDate.ns - due.ns)
    (hhi : completedDate.ns - due.ns ≤ maxDuration) :
    scheduleNextDueDate chore completedDate =
      Outcome.returned
        (some { ns := completedDate.ns + (completedDate.ns - due.ns), offset := 0 }) none := by
  have hst := stampedBaseDate_plain chore m completedDate (by rw [htype]; decide)
    (by rw [htype]; decide) (by rw [htype]; decide)
  refine schedule_of_basic_date chore completedDate _ _ m hmeta (by rw [htype]; decide) hst
    (Or.inr (stampNeedsZoneRules_plain chore m (by rw [htype]; decide) (by rw [htype]; decide)
      (by rw [htype]; decide))) hperiod ?_
  have hsub : completedDate.UTC.Sub due.UTC = completedDate.ns - due.ns := by
    simp only [Time.Sub, Time.UTC]
    rw [if_neg (by omega), if_neg (by omega)]
  simp only [calculateBasicNextDueDate, htype, hdue, hsub, Time.Add]
  simp [Time.UTC]

/-- C10 on a task due at 2024-01-01T08:00Z and completed two days late, at
2024-01-03T08:00Z: it is next due two days after the completion. -/
theorem C10_adaptive_mirrors_delay_witness :
    scheduleNextDueDate
        (sampleChore "adaptive" 1 (Payload.decoded (sampleMeta [] [] none none)) true
          (some (utc 2024 1 1 8 0)))
        (utc 2024 1 3 8 0) = Outcome.returned (some (utc 2024 1 5 8 0)) none := by
  rw [C10_adaptive_mirrors_delay
    (sampleChore "adaptive" 1 (Payload.decoded (sampleMeta [] [] none none)) true
      (some (utc 2024 1 1 8 0)))
    (utc 2024 1 3 8 0) (utc 2024 1 1 8 0) (sampleMeta [] [] none none) rfl rfl rfl (Or.inl rfl)
    (by decide) (by decide)]
  decide

/-! ## Claims on the period adjuster -/

/-- The three results of `adjustForPeriod` when a period is set. -/
theorem adjustForPeriod_cases (chore : Chore) (next start stop : Time)
    (hs : chore.PeriodStart = some start) (he : chore.PeriodEnd = some stop) :
    (next.Before (anchorPeriod next.Year start) →
      adjustForPeriod chore (some next) =
        Outcome.returned (some (anchorPeriod next.Year start)) none) ∧
    (¬ next.Before (anchorPeriod next.Year start) → next.After (anchorPeriod next.Year stop) →
      adjustForPeriod chore (some next) =
        Outcome.returned (some (anchorPeriod (next.Year + 1) start)) none) ∧
    (¬ next.Before (anchorPeriod next.Year start) → ¬ next.After (anchorPeriod next.Year stop) →
      adjustForPeriod chore (some next) = Outcome.returned (some next) none) := by
  unfold adjustForPeriod
  simp only [hs, he]
  refine ⟨fun h => ?_, fun h1 h2 => ?_, fun h1 h2 => ?_⟩
  · rw [if_pos h]
  · rw [if_neg h1, if_pos h2]
  · rw [if_neg h1, if_neg h2]

/-- C11: `adjustForPeriod` returns its candidate date unchanged when periodStart or
periodEnd is absent; when both are present, with S(y) and E(y) the stored start
and end moved to year y by `time.Date` (stored month, day, hour and minute,
seconds zero, UTC) and y the year of the candidate, it returns S(y) if the
candidate is before S(y), else S(y+1) if the candidate is after E(y), else the
candidate; S(y) lies in year y at the stored hour and minute with zero seconds
in UTC, on the stored month and day (a stored 29 February apart, which
`time.Date` carries over to 1 March in a year without one), and two stored
bounds with the same month, day, hour and minute give the same result whatever
their years. -/
theorem C11_adjustForPeriod_cases (chore : Chore) (next : Time) :
    ((chore.PeriodStart = none ∨ chore.PeriodEnd = none) →
      adjustForPeriod chore (some next) = Outcome.returned (some next) none) ∧
    (∀ start stop, chore.PeriodStart = some start → chore.PeriodEnd = some stop →
      (next.Before (anchorPeriod next.Year start) →
        adjustForPeriod chore (some next) =
          Outcome.returned (some (anchorPeriod next.Year start)) none) ∧
      (¬ next.Before (anchorPeriod next.Year start) →
        next.After (anchorPeriod next.Year stop) →
        adjustForPeriod chore (some next) =
          Outcome.returned (some (anchorPeriod (next.Year + 1) start)) none) ∧
      (¬ next.Before (anchorPeriod next.Year start) →
        ¬ next.After (anchorPeriod next.Year stop) →
        adjustForPeriod chore (some next) = Outcome.returned (some next) none)) ∧
    (∀ (year : Int) (p : Time),
      (anchorPeriod year p).Year = year ∧ (anchorPeriod year p).offset = 0 ∧
      (anchorPeriod year p).Hour = p.Hour ∧ (anchorPeriod year p).Minute = p.Minute ∧
      (anchorPeriod year p).Second = 0 ∧ (anchorPeriod year p).Nanosecond = 0 ∧
      (anchorPeriod year p).dayNumber = daysFromCivil year p.Month p.Day ∧
      (¬ (p.Month = 2 ∧ p.Day = 29) →
        (anchorPeriod year p).Month = p.Month ∧ (anchorPeriod year p).Day = p.Day)) ∧
    (∀ start stop otherStart otherStop : Time,
      chore.PeriodStart = some start → chore.PeriodEnd = some stop →
      otherStart.Month = start.Month → otherStart.Day = start.Day →
      otherStart.Hour = start.Hour → otherStart.Minute = start.Minute →
      otherStop.Month = stop.Month → otherStop.Day = stop.Day →
      otherStop.Hour = stop.Hour → otherStop.Minute = stop.Minute →
      adjustForPeriod { chore with PeriodStart := some otherStart, PeriodEnd := some otherStop }
          (some next) =
        adjustForPeriod chore (some next)) := by
  refine ⟨adjustForPeriod_no_period chore (some next), ?_, ?_, ?_⟩
  · intro start stop hs he
    exact adjustForPeriod_cases chore next start stop hs he
  · intro year p
    have h := anchorPeriod_fields year p
    exact ⟨h.2.1, h.2.2.1, h.2.2.2.1, h.2.2.2.2.1, h.2.2.2.2.2.1, h.2.2.2.2.2.2, h.1,
      anchorPeriod_month_day year p⟩
  · intro start stop otherStart otherStop hs he m1 d1 h1 mi1 m2 d2 h2 mi2
    simp only [adjustForPeriod, hs, he, anchorPeriod, m1, d1, h1, mi1, m2, d2, h2, mi2]

/-- C11 at the example of the specification: with the window 06-01T00:00 to
08-31T23:59, stored in 2023, the candidate 2024-12-01T00:00Z gives
2025-06-01T00:00Z; a candidate inside the window is returned as it is and one
before the window gives the start of its year; a start stored on 2024-02-29
moved to 2025 is 2025-03-01. -/
theorem C11_adjustForPeriod_cases_witness :
    adjustForPeriod
        { sampleChore "daily" 1 Payload.absent false none with
          PeriodStart := some (utc 2023 6 1 0 0), PeriodEnd := some (utc 2023 8 31 23 59) }
        (some (utc 2024 12 1 0 0)) = Outcome.returned (some (utc 2025 6 1 0 0)) none ∧
    adjustForPeriod
        { sampleChore "daily" 1 Payload.absent false none with
          PeriodStart := some (utc 2023 6 1 0 0), PeriodEnd := some (utc 2023 8 31 23 59) }
        (some (utc 2024 7 4 9 30)) = Outcome.returned (some (utc 2024 7 4 9 30)) none ∧
    adjustForPeriod
        { sampleChore "daily" 1 Payload.absent false none with
          PeriodStart := some (utc 2023 6 1 0 0), PeriodEnd := some (utc 2023 8 31 23 59) }
        (some (utc 2024 2 10 9 30)) = Outcome.returned (some (utc 2024 6 1 0 0)) none ∧
    anchorPeriod 2025 (utc 2024 2 29 0 0) = utc 2025 3 1 0 0 := by
  have h := (C11_adjustForPeriod_cases
    { sampleChore "daily" 1 Payload.absent false none with
      PeriodStart := some (utc 2023 6 1 0 0), PeriodEnd := some (utc 2023 8 31 23 59) }
    (utc 2024 12 1 0 0)).2.1 (utc 2023 6 1 0 0) (utc 2023 8 31 23 59) rfl rfl
  refine ⟨?_, by decide, by decide, by decide⟩
  rw [h.2.1 (by decide) (by decide)]
  decide

/-- With a period set, `adjustForPeriod` returns the candidate or one of two starts. -/
theorem adjustForPeriod_result (chore : Chore) (next start stop : Time)
    (hs : chore.PeriodStart = some start) (he : chore.PeriodEnd = some stop) :
    (adjustForPeriod chore (some next) =
        Outcome.returned (some (anchorPeriod next.Year start)) none ∧
      next.Before (anchorPeriod next.Year start)) ∨
    (adjustForPeriod chore (some next) =
        Outcome.returned (some (anchorPeriod (next.Year + 1) start)) none ∧
      ¬ next.Before (anchorPeriod next.Year start) ∧ next.After (anchorPeriod next.Year stop)) ∨
    (adjustForPeriod chore (some next) = Outcome.returned (some next) none ∧
      ¬ next.Before (anchorPeriod next.Year start) ∧
      ¬ next.After (anchorPeriod next.Year stop)) := by
  have h := adjustForPeriod_cases chore next start stop hs he
  by_cases h1 : next.Before (anchorPeriod next.Year start)
  · exact Or.inl ⟨h.1 h1, h1⟩
  · by_cases h2 : next.After (anchorPeriod next.Year stop)
    · exact Or.inr (Or.inl ⟨h.2.1 h1 h2, h1, h2⟩)
    · exact Or.inr (Or.inr ⟨h.2.2 h1 h2, h1, h2⟩)

/-- The start of the next year is later than every instant of this year, for a
time read in UTC or in a zone east of UTC. -/
theorem next_start_after (next start : Time) (hoff : 0 ≤ next.offset) :
    next.ns < (anchorPeriod (next.Year + 1) start).ns := by
  have h1 := ns_lt_next_newYear next
  have hm := Month_bounds start
  have hd := Day_bounds start
  have hh := Hour_bounds start
  have hmi := Minute_bounds start
  have h2 := (daysFromCivil_in_year (next.Year + 1) start.Month start.Day hm.1 hm.2 hd.1 hd.2).1
  rw [anchorPeriod_ns]
  generalize newYear (next.Year + 1) = n at *
  generalize daysFromCivil (next.Year + 1) start.Month start.Day = z at *
  generalize start.Hour = h at *
  generalize start.Minute = mi at *
  omega

/-- C12 (the code against the claim): for a candidate read in UTC or in a zone east
of UTC, `adjustForPeriod` returns the candidate itself or a later start of the
period, whatever the period is; but the year of the candidate is read in the
zone of the candidate while the period is anchored in UTC, so the candidate
2024-12-31T23:00-05:00, which is 2025-01-01T04:00Z, with the window
01-01T00:00 to 06-30T23:59 is moved back to 2025-01-01T00:00Z, and so is the
next date of a days_of_the_week task whose metadata time is 23:00-05:00. -/
theorem C12_period_moves_back_west_of_utc :
    (∀ (chore : Chore) (next r : Time), 0 ≤ next.offset →
      adjustForPeriod chore (some next) = Outcome.returned (some r) none →
      ¬ r.Before next ∧
      (r = next ∨ ∃ start year, chore.PeriodStart = some start ∧ r = anchorPeriod year start)) ∧
    adjustForPeriod
        { sampleChore "daily" 1 Payload.absent false none with
          PeriodStart := some (utc 2023 1 1 0 0), PeriodEnd := some (utc 2023 6 30 23 59) }
        (some (Date 2024 12 31 23 0 0 0 (-18000))) =
      Outcome.returned (some (utc 2025 1 1 0 0)) none ∧
    (utc 2025 1 1 0 0).Before (Date 2024 12 31 23 0 0 0 (-18000)) ∧
    (Date 2024 12 31 23 0 0 0 (-18000)).ns = (utc 2025 1 1 4 0).ns ∧
    calculateBasicNextDueDate
        { sampleChore "days_of_the_week" 1
            (Payload.decoded
              (sampleMeta ["tuesday"] [] none (some (Date 2024 1 1 23 0 0 0 (-18000)))))
            false (some (utc 2024 12 30 12 0)) with
          PeriodStart := some (utc 2023 1 1 0 0), PeriodEnd := some (utc 2023 6 30 23 59) }
        (utc 2024 12 30 13 0) (Date 2024 12 30 23 0 0 0 (-18000)) =
      Outcome.returned (some (Date 2024 12 31 23 0 0 0 (-18000))) none ∧
    scheduleNextDueDate
        { sampleChore "days_of_the_week" 1
            (Payload.decoded
              (sampleMeta ["tuesday"] [] none (some (Date 2024 1 1 23 0 0 0 (-18000)))))
            false (some (utc 2024 12 30 12 0)) with
          PeriodStart := some (utc 2023 1 1 0 0), PeriodEnd := some (utc 2023 6 30 23 59) }
        (utc 2024 12 30 13 0) =
      Outcome.returned (some (utc 2025 1 1 0 0)) none := by
  refine ⟨?_, by decide, by decide, by decide, by decide, by decide⟩
  intro chore next r hoff hr
  cases hs : chore.PeriodStart with
  | none =>
    rw [adjustForPeriod_no_period chore (some next) (Or.inl hs)] at hr
    injection hr with hr _
    injection hr with hr
    subst hr
    exact ⟨by simp [Time.Before], Or.inl rfl⟩
  | some start =>
    cases he : chore.PeriodEnd with
    | none =>
      rw [adjustForPeriod_no_period chore (some next) (Or.inr he)] at hr
      injection hr with hr _
      injection hr with hr
      subst hr
      exact ⟨by simp [Time.Before], Or.inl rfl⟩
    | some stop =>
      rcases adjustForPeriod_result chore next start stop hs he with
        ⟨h, hb⟩ | ⟨h, _, _⟩ | ⟨h, _, _⟩
      · rw [h] at hr
        injection hr with hr _
        injection hr with hr
        subst hr
        refine ⟨?_, Or.inr ⟨start, next.Year, rfl, rfl⟩⟩
        simp only [Time.Before] at hb ⊢
        omega
      · rw [h] at hr
        injection hr with hr _
        injection hr with hr
        subst hr
        refine ⟨?_, Or.inr ⟨start, next.Year + 1, rfl, rfl⟩⟩
        have hlt := next_start_after next start hoff
        simp only [Time.Before]
        omega
      · rw [h] at hr
        injection hr with hr _
        injection hr with hr
        subst hr
        exact ⟨by simp [Time.Before], Or.inl rfl⟩

/-- C12 on a UTC candidate after the window 06-01T00:00 to 08-31T23:59: the date
2024-12-01T00:00Z is moved forward to 2025-06-01T00:00Z. -/
theorem C12_period_moves_back_west_of_utc_witness :
    ¬ (utc 2025 6 1 0 0).Before (utc 2024 12 1 0 0) :=
  (C12_period_moves_back_west_of_utc.1
    { sampleChore "daily" 1 Payload.absent false none with
      PeriodStart := some (utc 2023 6 1 0 0), PeriodEnd := some (utc 2023 8 31 23 59) }
    (utc 2024 12 1 0 0) (utc 2025 6 1 0 0) (by decide) (by decide)).1

theorem finishSchedule_some (chore : Chore) (o : Outcome) (r : Time) (err : Option String)
    (h : finishSchedule chore o = Outcome.returned (some r) err) :
    ∃ candidate, adjustForPeriod chore (some candidate) = Outcome.returned (some r) err := by
  cases o with
  | panicked => simp [finishSchedule] at h
  | unmodelled => simp [finishSchedule] at h
  | returned date e =>
    cases e with
    | some msg => simp [finishSchedule] at h
    | none =>
      cases date with
      | none => simp [finishSchedule] at h
      | some d => exact ⟨d, by simpa [finishSchedule] using h⟩

/-- Every date returned by `scheduleNextDueDate` has gone through `adjustForPeriod`. -/
theorem schedule_some_adjusted (chore : Chore) (completedDate r : Time) (err : Option String)
    (h : scheduleNextDueDate chore completedDate = Outcome.returned (some r) err) :
    ∃ candidate, adjustForPeriod chore (some candidate) = Outcome.returned (some r) err := by
  unfold scheduleNextDueDate at h
  cases hp : chore.FrequencyMetadata with
  | absent => simp [hp] at h
  | malformed => simp [hp] at h
  | decoded m =>
    simp only [hp] at h
    by_cases honce : chore.FrequencyType = "once"
    · simp [honce] at h
    · simp only [honce, if_false] at h
      cases hst : stampedBaseDate chore m completedDate with
      | none => simp [hst] at h
      | some stamped =>
        simp only [hst] at h
        split at h
        · exact finishSchedule_some chore _ r err h
        · exact finishSchedule_some chore _ r err h

/-- With a window whose start is never after its end, the result of
`adjustForPeriod` lies inside the window of its own year and is a fixed point. -/
theorem adjustForPeriod_in_window (chore : Chore) (next start stop : Time)
    (hs : chore.PeriodStart = some start) (he : chore.PeriodEnd = some stop)
    (hwin : ∀ year, ¬ (anchorPeriod year start).After (anchorPeriod year stop)) :
    ∃ r, adjustForPeriod chore (some next) = Outcome.returned (some r) none ∧
      inWindow start stop r.Year r ∧
      adjustForPeriod chore (some r) = Outcome.returned (some r) none := by
  have fixed : ∀ r : Time, inWindow start stop r.Year r →
      adjustForPeriod chore (some r) = Outcome.returned (some r) none := by
    intro r hr
    exact (adjustForPeriod_cases chore r start stop hs he).2.2 hr.1 hr.2
  have atStart : ∀ year, inWindow start stop (anchorPeriod year start).Year
      (anchorPeriod year start) := by
    intro year
    rw [(anchorPeriod_fields year start).2.1]
    exact ⟨by simp [Time.Before], hwin year⟩
  rcases adjustForPeriod_result chore next start stop hs he with
    ⟨h, _⟩ | ⟨h, _, _⟩ | ⟨h, h1, h2⟩
  · exact ⟨_, h, atStart _, fixed _ (atStart _)⟩
  · exact ⟨_, h, atStart _, fixed _ (atStart _)⟩
  · exact ⟨_, h, ⟨h1, h2⟩, fixed _ ⟨h1, h2⟩⟩

/-- C20: when periodStart and periodEnd are both set and in every year the start
moved to that year is not after the end moved to that year, `adjustForPeriod`
returns for every candidate a date that lies inside the active window of its
own year, adjusting that date again returns it unchanged, and every date
returned by `scheduleNextDueDate` lies inside the active window of its own
year. -/
theorem C20_adjusted_date_in_window (chore : Chore) (start stop : Time)
    (hs : chore.PeriodStart = some start) (he : chore.PeriodEnd = some stop)
    (hwin : ∀ year, ¬ (anchorPeriod year start).After (anchorPeriod year stop)) :
    (∀ next, ∃ r, adjustForPeriod chore (some next) = Outcome.returned (some r) none ∧
      inWindow start stop r.Year r ∧
      adjustForPeriod chore (some r) = Outcome.returned (some r) none) ∧
    (∀ completedDate r err,
      scheduleNextDueDate chore completedDate = Outcome.returned (some r) err →
      inWindow start stop r.Year r) := by
  refine ⟨fun next => adjustForPeriod_in_window chore next start stop hs he hwin, ?_⟩
  intro completedDate r err h
  obtain ⟨candidate, hc⟩ := schedule_some_adjusted chore completedDate r err h
  obtain ⟨r', hr', hin, _⟩ := adjustForPeriod_in_window chore candidate start stop hs he hwin
  rw [hr'] at hc
  injection hc with hc _
  injection hc with hc
  subst hc
  exact hin

/-- The window 06-01T00:00 to 08-31T23:59 starts before it ends in every year. -/
theorem summer_window_ordered (year : Int) :
    ¬ (anchorPeriod year (utc 2023 6 1 0 0)).After (anchorPeriod year (utc 2023 8 31 23 59)) := by
  have s1 : (utc 2023 6 1 0 0).Month = 6 := by decide
  have s2 : (utc 2023 6 1 0 0).Day = 1 := by decide
  have s3 : (utc 2023 6 1 0 0).Hour = 0 := by decide
  have s4 : (utc 2023 6 1 0 0).Minute = 0 := by decide
  have e1 : (utc 2023 8 31 23 59).Month = 8 := by decide
  have e2 : (utc 2023 8 31 23 59).Day = 31 := by decide
  have e3 : (utc 2023 8 31 23 59).Hour = 23 := by decide
  have e4 : (utc 2023 8 31 23 59).Minute = 59 := by decide
  simp only [Time.After, anchorPeriod_ns, s1, s2, s3, s4, e1, e2, e3, e4, daysFromCivil]
  simp only [show ¬ ((6 : Int) ≤ 2) from by decide, show (6 : Int) > 2 from by decide,
    show ¬ ((8 : Int) ≤ 2) from by decide, show (8 : Int) > 2 from by decide, if_true, if_false]
  omega

/-- C20 on a daily task with the window 06-01T00:00 to 08-31T23:59 and the previous
due date 2024-08-31T10:00Z: the next date 2024-09-01T10:00Z is after the
window, the task is scheduled at 2025-06-01T00:00Z, and that date lies in the
window of 2025. -/
theorem C20_adjusted_date_in_window_witness :
    scheduleNextDueDate
        { sampleChore "daily" 1 (Payload.decoded (sampleMeta [] [] none none)) false
            (some (utc 2024 8 31 10 0)) with
          PeriodStart := some (utc 2023 6 1 0 0), PeriodEnd := some (utc 2023 8 31 23 59) }
        (utc 2024 8 31 11 0) = Outcome.returned (some (utc 2025 6 1 0 0)) none ∧
    inWindow (utc 2023 6 1 0 0) (utc 2023 8 31 23 59) (utc 2025 6 1 0 0).Year
      (utc 2025 6 1 0 0) :=
  ⟨by decide,
    (C20_adjusted_date_in_window
      { sampleChore "daily" 1 (Payload.decoded (sampleMeta [] [] none none)) false
          (some (utc 2024 8 31 10 0)) with
        PeriodStart := some (utc 2023 6 1 0 0), PeriodEnd := some (utc 2023 8 31 23 59) }
      (utc 2023 6 1 0 0) (utc 2023 8 31 23 59) rfl rfl summer_window_ordered).2
      (utc 2024 8 31 11 0) (utc 2025 6 1 0 0) none (by decide)⟩

/-! ## Claims on the adaptive estimator -/

theorem historyDelays_some (history : List ChoreHistory)
    (h : ∀ e ∈ history, e.CompletedAt ≠ none) : ∃ delays, historyDelays history = some delays := by
  induction history with
  | nil => exact ⟨[], rfl⟩
  | cons a rest ih =>
    cases rest with
    | nil => exact ⟨[], rfl⟩
    | cons b rest =>
      obtain ⟨delays, hd⟩ := ih (fun e he => h e (List.mem_cons_of_mem _ he))
      obtain ⟨x, hx⟩ := Option.ne_none_iff_exists'.mp (h a (List.mem_cons_self _ _))
      obtain ⟨y, hy⟩ := Option.ne_none_iff_exists'.mp
        (h b (List.mem_cons_of_mem _ (List.mem_cons_self _ _)))
      exact ⟨x.UTC.Sub y.UTC :: delays, by simp [historyDelays, hx, hy, hd]⟩

/-- The estimator on a non-empty history. -/
theorem scheduleAdaptive_of_cons (averageDelay : List Int → Int) (chore : Chore)
    (completedDate : Time) (a : ChoreHistory) (rest : List ChoreHistory) :
    scheduleAdaptiveNextDueDate averageDelay chore completedDate (a :: rest) =
      match historyDelays ({ CompletedAt := some completedDate } :: a :: rest) with
      | none => Outcome.panicked
      | some delays =>
        Outcome.returned
          (some (completedDate.UTC.Add (wrapInt64 (averageDelay delays * 1000000000)))) none := by
  have hlen : ¬ (rest.length + 1 + 1 < 2) := by omega
  simp only [scheduleAdaptiveNextDueDate, List.length_cons, hlen, if_false]

/-- C13 (as stated, refuted): with an empty history, a task due at 1700-01-01T00:00Z
and completed at 2024-01-01T00:00Z, 324 years later, is not scheduled 324 years
after the completion: the difference of the two instants saturates at the
largest duration, about 292 years. -/
theorem C13_counterexample :
    scheduleAdaptiveNextDueDate (fun _ => 0)
        (sampleChore "adaptive" 1 (Payload.decoded (sampleMeta [] [] none none)) false
          (some (utc 1700 1 1 0 0)))
        (utc 2024 1 1 0 0) [] =
      Outcome.returned (some ((utc 2024 1 1 0 0).Add maxDuration)) none ∧
    scheduleAdaptiveNextDueDate (fun _ => 0)
        (sampleChore "adaptive" 1 (Payload.decoded (sampleMeta [] [] none none)) false
          (some (utc 1700 1 1 0 0)))
        (utc 2024 1 1 0 0) [] ≠
      Outcome.returned
        (some ((utc 2024 1 1 0 0).Add ((utc 2024 1 1 0 0).ns - (utc 1700 1 1 0 0).ns))) none := by
  decide

/-- C13 (amended): for every task and completion timestamp, whatever the float
computation yields, `scheduleAdaptiveNextDueDate` called with an empty history
returns the instant completedAt + (completedAt − nextDueDate) in UTC with no
error when nextDueDate is present and no more than the largest 64-bit duration
away from the completion, and returns no date and no error when nextDueDate is
absent; with a non-empty history whose entries all carry a completion
timestamp it returns a date and no error. -/
theorem C13_adaptive_short_history (averageDelay : List Int → Int) (chore : Chore)
    (completedDate : Time) :
    (∀ due, chore.NextDueDate = some due → minDuration ≤ completedDate.ns - due.ns →
      completedDate.ns - due.ns ≤ maxDuration →
      scheduleAdaptiveNextDueDate averageDelay chore completedDate [] =
        Outcome.returned
          (some { ns := completedDate.ns + (completedDate.ns - due.ns), offset := 0 }) none) ∧
    (chore.NextDueDate = none →
      scheduleAdaptiveNextDueDate averageDelay chore completedDate [] =
        Outcome.returned none none) ∧
    (∀ history, history ≠ [] → (∀ e ∈ history, e.CompletedAt ≠ none) →
      ∃ next, scheduleAdaptiveNextDueDate averageDelay chore completedDate history =
        Outcome.returned (some next) none) := by
  refine ⟨?_, ?_, ?_⟩
  · intro due hdue hlo hhi
    have hsub : completedDate.UTC.Sub due.UTC = completedDate.ns - due.ns := by
      simp only [Time.Sub, Time.UTC]
      rw [if_neg (by omega), if_neg (by omega)]
    simp only [scheduleAdaptiveNextDueDate, hdue, hsub, Time.Add]
    simp [Time.UTC]
  · intro hnone
    simp [scheduleAdaptiveNextDueDate, hnone]
  · intro history hne hall
    cases history with
    | nil => exact absurd rfl hne
    | cons a rest =>
      obtain ⟨delays, hd⟩ := historyDelays_some ({ CompletedAt := some completedDate } :: a :: rest)
        (by
          intro e he
          rcases List.mem_cons.mp he with h | h
          · rw [h]; simp
          · exact hall e h)
      rw [scheduleAdaptive_of_cons, hd]
      exact ⟨_, rfl⟩

/-- C13 on a task due at 2024-01-01T08:00Z and completed at 2024-01-03T08:00Z with
an empty history: it is next due at 2024-01-05T08:00Z. -/
theorem C13_adaptive_short_history_witness :
    scheduleAdaptiveNextDueDate (fun _ => 0)
        (sampleChore "adaptive" 1 (Payload.decoded (sampleMeta [] [] none none)) false
          (some (utc 2024 1 1 8 0)))
        (utc 2024 1 3 8 0) [] = Outcome.returned (some (utc 2024 1 5 8 0)) none := by
  rw [(C13_adaptive_short_history (fun _ => 0)
    (sampleChore "adaptive" 1 (Payload.decoded (sampleMeta [] [] none none)) false
      (some (utc 2024 1 1 8 0)))
    (utc 2024 1 3 8 0)).1 (utc 2024 1 1 8 0) rfl (by decide) (by decide)]
  decide

theorem RemoveAssignee_assignees (chore : Chore) (userID : Int) (draw : Nat) (now : Time) :
    (RemoveAssigneeAndReassign chore userID draw now).Assignees =
      removeAssignee userID chore.Assignees := by
  unfold RemoveAssigneeAndReassign
  cases h : removeAssignee userID chore.Assignees <;> rfl

theorem removeAssignee_of_not_member (userID : Int) (l : List ChoreAssignees)
    (h : ∀ a ∈ l, a.UserID ≠ userID) : removeAssignee userID l = l := by
  induction l with
  | nil => rfl
  | cons a rest ih =>
    have ha : a.UserID ≠ userID := h a (List.mem_cons_self _ _)
    simp [removeAssignee, ha, ih (fun b hb => h b (List.mem_cons_of_mem _ hb))]

theorem removeAssignee_of_member (userID : Int) (l : List ChoreAssignees)
    (h : ∃ a ∈ l, a.UserID = userID) :
    ∃ pre a post, l = pre ++ a :: post ∧ a.UserID = userID ∧
      (∀ b ∈ pre, b.UserID ≠ userID) ∧ removeAssignee userID l = pre ++ post := by
  induction l with
  | nil =>
    obtain ⟨a, ha, _⟩ := h
    exact absurd ha (List.not_mem_nil a)
  | cons a rest ih =>
    by_cases ha : a.UserID = userID
    · exact ⟨[], a, rest, rfl, ha, by simp, by simp [removeAssignee, ha]⟩
    · obtain ⟨b, hb, hbu⟩ := h
      have hrest : ∃ c ∈ rest, c.UserID = userID := by
        rcases List.mem_cons.mp hb with heq | hmem
        · exact absurd (by rw [← heq]; exact hbu) ha
        · exact ⟨b, hmem, hbu⟩
      obtain ⟨pre, c, post, hl, hc, hpre, hrem⟩ := ih hrest
      refine ⟨a :: pre, c, post, by rw [hl]; rfl, hc, ?_, by simp [removeAssignee, ha, hrem]⟩
      intro d hd
      rcases List.mem_cons.mp hd with heq | hmem
      · rw [heq]; exact ha
      · exact hpre d hmem

/-- C16: for every task, person identifier, random draw and clock reading, after
`RemoveAssigneeAndReassign` the assignees list is the previous list with the
first entry whose identifier is personID cut out and all other entries in
their order; if personID is not a member the list is unchanged; the length
drops by exactly one when personID was a member and by zero otherwise. -/
theorem C16_first_occurrence_removed (chore : Chore) (userID : Int) (draw : Nat) (now : Time) :
    ((∀ a ∈ chore.Assignees, a.UserID ≠ userID) →
      (RemoveAssigneeAndReassign chore userID draw now).Assignees = chore.Assignees) ∧
    ((∃ a ∈ chore.Assignees, a.UserID = userID) →
      ∃ pre a post, chore.Assignees = pre ++ a :: post ∧ a.UserID = userID ∧
        (∀ b ∈ pre, b.UserID ≠ userID) ∧
        (RemoveAssigneeAndReassign chore userID draw now).Assignees = pre ++ post ∧
        (RemoveAssigneeAndReassign chore userID draw now).Assignees.length + 1 =
          chore.Assignees.length) := by
  rw [RemoveAssignee_assignees]
  refine ⟨removeAssignee_of_not_member userID chore.Assignees, ?_⟩
  intro h
  obtain ⟨pre, a, post, hl, ha, hpre, hrem⟩ := removeAssignee_of_member userID chore.Assignees h
  refine ⟨pre, a, post, hl, ha, hpre, hrem, ?_⟩
  rw [hrem, hl]
  simp only [List.length_append, List.length_cons]
  omega

/-- C16 at the example of the specification: removing B = 2 from the assignees
A = 1, B = 2, C = 3 leaves A, C. -/
theorem C16_first_occurrence_removed_witness :
    (RemoveAssigneeAndReassign
        { sampleChore "daily" 1 Payload.absent false none with
          Assignees := [{ UserID := 1 }, { UserID := 2 }, { UserID := 3 }] }
        2 0 zeroTime).Assignees = [{ UserID := 1 }, { UserID := 3 }] ∧
    (RemoveAssigneeAndReassign
        { sampleChore "daily" 1 Payload.absent false none with
          Assignees := [{ UserID := 1 }, { UserID := 2 }, { UserID := 3 }] }
        4 0 zeroTime).Assignees = [{ UserID := 1 }, { UserID := 2 }, { UserID := 3 }] :=
  ⟨by decide,
    (C16_first_occurrence_removed
      { sampleChore "daily" 1 Payload.absent false none with
        Assignees := [{ UserID := 1 }, { UserID := 2 }, { UserID := 3 }] }
      4 0 zeroTime).1 (by decide)⟩

/-- The two ways `RemoveAssigneeAndReassign` ends. -/
theorem RemoveAssignee_ends (chore : Chore) (userID : Int) (draw : Nat) (now : Time) :
    (removeAssignee userID chore.Assignees = [] ∧
      RemoveAssigneeAndReassign chore userID draw now =
        { chore with Assignees := [], AssignedTo := chore.CreatedBy, UpdatedAt := now }) ∨
    (∃ first rest, removeAssignee userID chore.Assignees = first :: rest ∧
      RemoveAssigneeAndReassign chore userID draw now =
        { chore with
          Assignees := first :: rest
          AssignedTo := ((first :: rest).getD (draw % (rest.length + 1)) first).UserID
          UpdatedAt := now }) := by
  unfold RemoveAssigneeAndReassign
  cases h : removeAssignee userID chore.Assignees with
  | nil => exact Or.inl ⟨rfl, rfl⟩
  | cons first rest => exact Or.inr ⟨first, rest, rfl, rfl⟩

theorem getD_mem (l : List ChoreAssignees) (i : Nat) (d : ChoreAssignees) (h : i < l.length) :
    l.getD i d ∈ l := by
  rw [List.getD_eq_getElem l d h]
  exact List.getElem_mem h

/-- C17: for every task, person identifier and random draw, after
`RemoveAssigneeAndReassign` assignedTo is createdBy when the remaining
assignees list is empty and otherwise the identifier of a member of the
remaining list, and every member of the remaining list is chosen by some
draw; so assignedTo is afterwards a member of assignees or the creator of
the task. -/
theorem C17_reassigned_to_member_or_creator (chore : Chore) (userID : Int) (draw : Nat)
    (now : Time) :
    ((RemoveAssigneeAndReassign chore userID draw now).Assignees = [] →
      (RemoveAssigneeAndReassign chore userID draw now).AssignedTo = chore.CreatedBy) ∧
    ((RemoveAssigneeAndReassign chore userID draw now).Assignees ≠ [] →
      ∃ a ∈ (RemoveAssigneeAndReassign chore userID draw now).Assignees,
        (RemoveAssigneeAndReassign chore userID draw now).AssignedTo = a.UserID) ∧
    (∀ a ∈ (RemoveAssigneeAndReassign chore userID draw now).Assignees,
      ∃ other : Nat,
        (RemoveAssigneeAndReassign chore userID other now).AssignedTo = a.UserID) ∧
    (RemoveAssigneeAndReassign chore userID draw now).CreatedBy = chore.CreatedBy ∧
    ((∃ a ∈ (RemoveAssigneeAndReassign chore userID draw now).Assignees,
        (RemoveAssigneeAndReassign chore userID draw now).AssignedTo = a.UserID) ∨
      (RemoveAssigneeAndReassign chore userID draw now).AssignedTo =
        (RemoveAssigneeAndReassign chore userID draw now).CreatedBy) := by
  have hsame : ∀ other : Nat,
      (RemoveAssigneeAndReassign chore userID other now).Assignees =
        removeAssignee userID chore.Assignees := fun other =>
    RemoveAssignee_assignees chore userID other now
  rcases RemoveAssignee_ends chore userID draw now with ⟨hnil, h⟩ | ⟨first, rest, hcons, h⟩
  · rw [h]
    refine ⟨fun _ => rfl, fun hne => absurd rfl hne, ?_, rfl, Or.inr rfl⟩
    intro a ha
    exact absurd ha (List.not_mem_nil a)
  · have hlt : draw % (rest.length + 1) < (first :: rest).length :=
      Nat.mod_lt _ (Nat.succ_pos _)
    have hmem := getD_mem (first :: rest) (draw % (rest.length + 1)) first hlt
    rw [h]
    refine ⟨fun hnil => absurd hnil (List.cons_ne_nil _ _), fun _ => ⟨_, hmem, rfl⟩, ?_, rfl,
      Or.inl ⟨_, hmem, rfl⟩⟩
    intro a ha
    obtain ⟨i, hi, hget⟩ := List.getElem_of_mem ha
    refine ⟨i, ?_⟩
    rcases RemoveAssignee_ends chore userID i now with ⟨hnil, _⟩ | ⟨first2, rest2, hcons2, h2⟩
    · rw [hnil] at hcons
      exact absurd hcons (List.cons_ne_nil _ _).symm
    · rw [hcons] at hcons2
      injection hcons2 with hf hr
      subst hf
      subst hr
      rw [h2]
      have hi' : i < (first :: rest).length := hi
      have hmod : i % (rest.length + 1) = i := Nat.mod_eq_of_lt hi'
      show ((first :: rest).getD (i % (rest.length + 1)) first).UserID = a.UserID
      rw [hmod, List.getD_eq_getElem (first :: rest) first hi', hget]


/-- C17 at the examples of the specification: removing B = 2 from the assignees
A = 1, B = 2, C = 3 assigns the task to A or to C, according to the draw, and
removing the only assignee assigns it to the creator 7. -/
theorem C17_reassigned_to_member_or_creator_witness :
    (RemoveAssigneeAndReassign
        { sampleChore "daily" 1 Payload.absent false none with
          Assignees := [{ UserID := 1 }], CreatedBy := 7 }
        1 5 zeroTime).AssignedTo = 7 ∧
    (RemoveAssigneeAndReassign
        { sampleChore "daily" 1 Payload.absent false none with
          Assignees := [{ UserID := 1 }, { UserID := 2 }, { UserID := 3 }], CreatedBy := 7 }
        2 0 zeroTime).AssignedTo = 1 ∧
    (RemoveAssigneeAndReassign
        { sampleChore "daily" 1 Payload.absent false none with
          Assignees := [{ UserID := 1 }, { UserID := 2 }, { UserID := 3 }], CreatedBy := 7 }
        2 1 zeroTime).AssignedTo = 3 :=
  ⟨(C17_reassigned_to_member_or_creator
      { sampleChore "daily" 1 Payload.absent false none with
        Assignees := [{ UserID := 1 }], CreatedBy := 7 }
      1 5 zeroTime).1 (by decide),
    by decide, by decide⟩

theorem removeAssignee_clears (userID : Int) (l : List ChoreAssignees)
    (h : (l.filter (fun a => a.UserID = userID)).length ≤ 1) :
    ∀ b ∈ removeAssignee userID l, b.UserID ≠ userID := by
  induction l with
  | nil =>
    intro b hb
    exact absurd hb (List.not_mem_nil b)
  | cons a rest ih =>
    by_cases ha : a.UserID = userID
    · have hrest : ∀ c ∈ rest, ¬ c.UserID = userID := by
        simpa [List.filter_cons, ha] using h
      intro b hb
      have hb' : b ∈ rest := by simpa [removeAssignee, ha] using hb
      exact hrest b hb'
    · have hrest : (rest.filter (fun a => a.UserID = userID)).length ≤ 1 := by
        simpa [List.filter_cons, ha] using h
      intro b hb
      have hb' : b = a ∨ b ∈ removeAssignee userID rest := by
        simpa [removeAssignee, ha] using hb
      rcases hb' with heq | hmem
      · rw [heq]; exact ha
      · exact ih hrest b hmem

/-- C18 (as stated, refuted): removing the only assignee 1 of a task created by 1
leaves the task assigned to 1, the removed person; and removing 2 from the
assignees 2, 2 leaves an entry 2 in the list and the task assigned to 2. -/
theorem C18_counterexample :
    (RemoveAssigneeAndReassign
        { sampleChore "daily" 1 Payload.absent false none with
          Assignees := [{ UserID := 1 }], CreatedBy := 1 }
        1 0 zeroTime).AssignedTo = 1 ∧
    (RemoveAssigneeAndReassign
        { sampleChore "daily" 1 Payload.absent false none with
          Assignees := [{ UserID := 2 }, { UserID := 2 }], CreatedBy := 7 }
        2 0 zeroTime).Assignees = [{ UserID := 2 }] ∧
    (RemoveAssigneeAndReassign
        { sampleChore "daily" 1 Payload.absent false none with
          Assignees := [{ UserID := 2 }, { UserID := 2 }], CreatedBy := 7 }
        2 0 zeroTime).AssignedTo = 2 := by
  decide

/-- C18 (amended): for every task in which personID occurs at most once among the
assignees, and for every random draw, after `RemoveAssigneeAndReassign` the
assignees list contains no entry whose identifier is personID, and assignedTo
is not personID unless the list has become empty and personID is the creator
of the task. -/
theorem C18_removed_person_gone (chore : Chore) (userID : Int) (draw : Nat) (now : Time)
    (hone : (chore.Assignees.filter (fun a => a.UserID = userID)).length ≤ 1) :
    (∀ a ∈ (RemoveAssigneeAndReassign chore userID draw now).Assignees, a.UserID ≠ userID) ∧
    ((RemoveAssigneeAndReassign chore userID draw now).Assignees ≠ [] ∨
        chore.CreatedBy ≠ userID →
      (RemoveAssigneeAndReassign chore userID draw now).AssignedTo ≠ userID) := by
  have hclear := removeAssignee_clears userID chore.Assignees hone
  rcases RemoveAssignee_ends chore userID draw now with ⟨hnil, h⟩ | ⟨first, rest, hcons, h⟩
  · rw [h]
    refine ⟨fun a ha => absurd ha (List.not_mem_nil a), ?_⟩
    rintro (hne | hc)
    · exact absurd rfl hne
    · exact hc
  · have hlt : draw % (rest.length + 1) < (first :: rest).length :=
      Nat.mod_lt _ (Nat.succ_pos _)
    have hmem := getD_mem (first :: rest) (draw % (rest.length + 1)) first hlt
    rw [hcons] at hclear
    rw [h]
    exact ⟨hclear, fun _ => hclear _ hmem⟩

/-- C18 at the example of the specification: after removing B = 2 from the
assignees A = 1, B = 2, C = 3 no entry is B and the task is not assigned to
B. -/
theorem C18_removed_person_gone_witness :
    (∀ a ∈ (RemoveAssigneeAndReassign
        { sampleChore "daily" 1 Payload.absent false none with
          Assignees := [{ UserID := 1 }, { UserID := 2 }, { UserID := 3 }], CreatedBy := 2 }
        2 4 zeroTime).Assignees, a.UserID ≠ 2) ∧
    (RemoveAssigneeAndReassign
        { sampleChore "daily" 1 Payload.absent false none with
          Assignees := [{ UserID := 1 }, { UserID := 2 }, { UserID := 3 }], CreatedBy := 2 }
        2 4 zeroTime).AssignedTo ≠ 2 :=
  ⟨(C18_removed_person_gone
      { sampleChore "daily" 1 Payload.absent false none with
        Assignees := [{ UserID := 1 }, { UserID := 2 }, { UserID := 3 }], CreatedBy := 2 }
      2 4 zeroTime (by decide)).1,
    (C18_removed_person_gone
      { sampleChore "daily" 1 Payload.absent false none with
        Assignees := [{ UserID := 1 }, { UserID := 2 }, { UserID := 3 }], CreatedBy := 2 }
      2 4 zeroTime (by decide)).2 (Or.inl (by decide))⟩

/-! ## Claims on the exhausted forward scan -/

end Donetick
